import Mathlib

/-!
Verification of the in-memory transaction pool storage
(bcos-txpool, src/bcos-txpool/txpool/storage/MemoryStorage.cpp).

The development is a shallow embedding of the sequential behaviour of the
storage operations. External collaborators (the transaction validator, the
ledger, the nonce checkers, callbacks and thread pools) are modelled as
parameters or as pure outputs:

* results of TxValidator.submittedToChain and TxValidator.verify are passed
  in as arguments (they are external oracles);
* work enqueued on the worker pool (ledger pre-commit) is recorded in a
  queue field; the retry process of preCommitTransaction is modelled as a
  recursive function over the sequence of ledger store outcomes;
* callback delivery (notifyInvalidReceipt, notifyTxResult) does not change
  the storage state; whether the submit callback fires is returned as a
  Bool alongside the status;
* the counter m_sealedTxsSize is a C++ size_t, so increments and
  decrements are taken modulo 2 ^ 64.

Hashes are Nat (0 plays the role of the default-constructed zero HashType),
nonces are Int (the sentinel NonceType(-1) is -1), block numbers are Int.
-/

namespace BcosTxPool

/-- Transaction status codes recognised at the txpool interface. -/
inductive TransactionStatus where
  | none
  | malform
  | alreadyInTxPool
  | txPoolIsFull
  | nonceCheckFail
  | blockLimitCheckFail
deriving DecidableEq

/-- Per-transaction record, the fields of bcos::protocol::Transaction that
MemoryStorage reads or writes.  The stored submit callback is modelled by
the flag hasSubmitCallback. -/
structure Tx where
  hash : Nat
  nonce : Int
  toAddr : Nat
  importTime : Nat
  sealed : Bool
  batchId : Int
  batchHash : Nat
  synced : Bool
  systemTx : Bool
  knownPeers : List Nat
  hasSubmitCallback : Bool
deriving DecidableEq

/-- Lightweight metadata record built by batchFetchTxs for each emitted
transaction. -/
structure TransactionMetaData where
  hash : Nat
  toAddr : Nat
  source : String
deriving DecidableEq

/-- A per-transaction result delivered by the block importer to
batchRemove. -/
structure TransactionSubmitResult where
  txHash : Nat
  nonce : Int
  status : Nat
deriving DecidableEq

/-- The state of MemoryStorage.  The transaction table is an association
list keyed by Tx.hash (the C++ table is a concurrent map, so keys are
unique; where a proof needs that fact it is an explicit hypothesis).
precommitQueue records the hashes handed to the ledger pre-commit worker.
hasUnsealedNotifier tells whether m_unsealedTxsNotifier is set. -/
structure MemoryStorage where
  txsTable : List Tx
  sealedTxsSize : Nat
  missedTxs : List Nat
  invalidTxs : List Nat
  invalidNonces : List Int
  blockNumber : Int
  blockNumberUpdatedTime : Nat
  hasUnsealedNotifier : Bool
  poolLimit : Nat
  precommitQueue : List Nat
deriving DecidableEq

/-- Modulus of the C++ size_t counter m_sealedTxsSize. -/
def W64 : Nat := 2 ^ 64

/-- size_t increment. -/
def inc64 (n : Nat) : Nat := (n + 1) % W64

/-- size_t decrement (wraps on underflow, as the C++ counter would). -/
def dec64 (n : Nat) : Nat := (n + (W64 - 1)) % W64

/-- Lookup in the transaction table: m_txsTable count plus operator
access, returning the stored transaction for a hash. -/
def findTx (h : Nat) (table : List Tx) : Option Tx :=
  table.find? (fun t => decide (t.hash = h))

/-- Membership test, m_txsTable.count. -/
def existTx (h : Nat) (table : List Tx) : Bool :=
  table.any (fun t => decide (t.hash = h))

/-- Insert-or-assign, the effect of m_txsTable index assignment. -/
def tableInsert (tx : Tx) (table : List Tx) : List Tx :=
  if existTx tx.hash table then
    table.map (fun t => if t.hash = tx.hash then tx else t)
  else
    table ++ [tx]

/-- In-place mutation of the transaction stored under a hash, the effect
of fetching the shared pointer from the table and calling setters on it. -/
def mutateTx (h : Nat) (f : Tx → Tx) (table : List Tx) : List Tx :=
  table.map (fun t => if t.hash = h then f t else t)

/-- Erasure of a key, m_txsTable.unsafe_erase. -/
def eraseTx (h : Nat) (table : List Tx) : List Tx :=
  table.filter (fun t => decide (t.hash ≠ h))

/-- Insertion into one of the hash or nonce sets. -/
def setInsert {α : Type} [DecidableEq α] (x : α) (s : List α) : List α :=
  if x ∈ s then s else s ++ [x]

/-- Erasure from one of the hash sets, unsafe_erase. -/
def setErase {α : Type} [DecidableEq α] (x : α) (s : List α) : List α :=
  s.filter (fun y => decide (y ≠ x))

/-- Number of transactions in a table whose sealed flag is set. -/
def countSealed (table : List Tx) : Nat :=
  (table.filter (fun t => t.sealed)).length

/-- unSealedTxsSizeWithoutLock: returns the unsealed size and the updated
state (the function clamps m_sealedTxsSize down to the table size when it
exceeds it). -/
def unSealedTxsSizeWithoutLock (S : MemoryStorage) : Nat × MemoryStorage :=
  if S.txsTable.length < S.sealedTxsSize then
    (0, { S with sealedTxsSize := S.txsTable.length })
  else
    (S.txsTable.length - S.sealedTxsSize, S)

/-- notifyUnsealedTxsSize: returns without effect when no notifier is
registered, otherwise computes the unsealed size (possibly clamping the
sealed counter) and hands it to the external notifier. -/
def notifyUnsealedTxsSize (S : MemoryStorage) : MemoryStorage :=
  if S.hasUnsealedNotifier then (unSealedTxsSizeWithoutLock S).2 else S

/-- removeWithoutLock: erase a hash from the table, decrement the sealed
counter when the removed transaction was sealed, return the removed
transaction (or none when the hash is absent). -/
def removeWithoutLock (h : Nat) (S : MemoryStorage) : Option Tx × MemoryStorage :=
  match findTx h S.txsTable with
  | Option.none => (Option.none, S)
  | Option.some tx =>
    (Option.some tx,
      { S with
        txsTable := eraseTx h S.txsTable
        sealedTxsSize := if tx.sealed then dec64 S.sealedTxsSize else S.sealedTxsSize })

/-- remove: removeWithoutLock under the write lock, followed by
notifyUnsealedTxsSize. -/
def remove (h : Nat) (S : MemoryStorage) : Option Tx × MemoryStorage :=
  let p := removeWithoutLock h S
  (p.1, notifyUnsealedTxsSize p.2)

/-- removeSubmittedTxWithoutLock: remove the hash named by the result; on
success notify the unsealed size and enqueue the result notification (the
notification job is external and does not change the storage state). -/
def removeSubmittedTxWithoutLock (r : TransactionSubmitResult) (S : MemoryStorage) :
    Option Tx × MemoryStorage :=
  let p := removeWithoutLock r.txHash S
  match p.1 with
  | Option.none => (Option.none, p.2)
  | Option.some tx => (Option.some tx, notifyUnsealedTxsSize p.2)

/-- The removal loop of batchRemove: remove each result, collecting the
nonce of the removed transaction, or the nonce carried by the result when
the transaction is absent and that nonce is not the sentinel -1. -/
def batchRemoveLoop (results : List TransactionSubmitResult) (S : MemoryStorage)
    (nonceList : List Int) (succCount : Nat) : MemoryStorage × List Int × Nat :=
  match results with
  | [] => (S, nonceList, succCount)
  | r :: rest =>
    match (removeSubmittedTxWithoutLock r S).1 with
    | Option.none =>
      if r.nonce ≠ (-1 : Int) then
        batchRemoveLoop rest (removeSubmittedTxWithoutLock r S).2 (nonceList ++ [r.nonce])
          succCount
      else
        batchRemoveLoop rest (removeSubmittedTxWithoutLock r S).2 nonceList succCount
    | Option.some tx =>
      batchRemoveLoop rest (removeSubmittedTxWithoutLock r S).2 (nonceList ++ [tx.nonce])
        (succCount + 1)

/-- batchRemove: stamp the block-number update time, remove every result
under the write lock, then raise blockNumber to the batch id when the
batch id is larger.  The collected nonce list is returned; pushing it to
the ledger nonce checker and dropping it from the pool nonce checker are
external calls. -/
def batchRemove (batchId : Int) (results : List TransactionSubmitResult) (now : Nat)
    (S : MemoryStorage) : MemoryStorage × List Int :=
  let S0 := { S with blockNumberUpdatedTime := now }
  let q := batchRemoveLoop results S0 [] 0
  let S1 := q.1
  let S2 := if batchId > S1.blockNumber then { S1 with blockNumber := batchId } else S1
  (S2, q.2.1)

/-- The bounded retry process of preCommitTransaction.  storeFails k tells
whether the asynchronous ledger store issued at retry counter k reports an
error.  The function returns the number of store attempts made and the
storage state, which the process never modifies (the job only encodes the
transaction and calls the ledger; the failure path sleeps and re-enqueues).
A retry counter above 3 makes the call return immediately without
enqueuing, and no error is signalled in either case. -/
def preCommitRun (storeFails : Nat → Bool) (retryTime : Nat) (S : MemoryStorage) :
    Nat × MemoryStorage :=
  if h : retryTime > 3 then (0, S)
  else
    if storeFails retryTime then
      let p := preCommitRun storeFails (retryTime + 1) S
      (1 + p.1, p.2)
    else (1, S)
termination_by 4 - retryTime
decreasing_by simp_wf; omega

/-- size: the table size. -/
def size (S : MemoryStorage) : Nat := S.txsTable.length

/-- insert: store the transaction under its hash, fire the on-ready hook
(an external call), enqueue the ledger pre-commit job on the worker, and
notify the unsealed size.  Returns None. -/
def insert (tx : Tx) (S : MemoryStorage) : TransactionStatus × MemoryStorage :=
  let S1 := { S with
    txsTable := tableInsert tx S.txsTable
    precommitQueue := S.precommitQueue ++ [tx.hash] }
  (TransactionStatus.none, notifyUnsealedTxsSize S1)

/-- enforceSubmitTransaction: proposal-driven import.  vres is the answer
of TxValidator.submittedToChain for the transaction (an external oracle).
When the hash is present: an unsealed entry is sealed with the batch
identity carried by the submitted transaction and the counter is bumped;
a sealed entry with the same batch identity is accepted idempotently;
otherwise AlreadyInTxPool.  When the hash is absent the transaction is
inserted, pre-marked sealed (bumping the counter only when its sealed
flag was clear), and its hash is erased from the missed set. -/
def enforceSubmitTransaction (vres : TransactionStatus) (tx : Tx) (S : MemoryStorage) :
    TransactionStatus × MemoryStorage :=
  if vres = TransactionStatus.nonceCheckFail then (TransactionStatus.nonceCheckFail, S)
  else
    match findTx tx.hash S.txsTable with
    | Option.some old =>
      if old.sealed = false then
        (TransactionStatus.none,
          { S with
            sealedTxsSize := inc64 S.sealedTxsSize
            txsTable := mutateTx tx.hash
              (fun t => { t with sealed := true, batchId := tx.batchId, batchHash := tx.batchHash })
              S.txsTable })
      else if old.batchId = tx.batchId ∧ old.batchHash = tx.batchHash then
        (TransactionStatus.none, S)
      else
        (TransactionStatus.alreadyInTxPool, S)
    | Option.none =>
      let tx1 := if tx.sealed = false then { tx with sealed := true } else tx
      let S1 := if tx.sealed = false then { S with sealedTxsSize := inc64 S.sealedTxsSize } else S
      let S2 := (insert tx1 S1).2
      (TransactionStatus.none, { S2 with missedTxs := setErase tx.hash S2.missedTxs })

/-- verifyAndSubmitTransaction: the verify-path admission pipeline.  vver
is the answer of TxValidator.verify (an external oracle); now is utcTime;
hasCallback tells whether a submit callback was passed in.  The third
component of the result reports whether the submit callback was invoked
inside this function (notifyInvalidReceipt after a failed verification;
the early pool-full and duplicate returns never reach it). -/
def verifyAndSubmitTransaction (vver : TransactionStatus) (now : Nat) (tx : Tx)
    (hasCallback : Bool) (S : MemoryStorage) :
    TransactionStatus × MemoryStorage × Bool :=
  if S.poolLimit ≤ size S then (TransactionStatus.txPoolIsFull, S, false)
  else
    let tx1 := if hasCallback then { tx with hasSubmitCallback := true } else tx
    if existTx tx1.hash S.txsTable then (TransactionStatus.alreadyInTxPool, S, false)
    else if vver = TransactionStatus.none then
      let tx2 := { tx1 with importTime := now }
      let S1 := (insert tx2 S).2
      (TransactionStatus.none, { S1 with missedTxs := setErase tx1.hash S1.missedTxs }, false)
    else
      (vver, S, tx1.hasSubmitCallback)

/-- submitTransaction with the enforce flag: dispatch to the enforce path
(which never fires the callback) or to the verify path. -/
def submitTransaction (vres vver : TransactionStatus) (now : Nat) (tx : Tx)
    (hasCallback : Bool) (enforceImport : Bool) (S : MemoryStorage) :
    TransactionStatus × MemoryStorage × Bool :=
  if enforceImport then
    let p := enforceSubmitTransaction vres tx S
    (p.1, p.2, false)
  else
    verifyAndSubmitTransaction vver now tx hasCallback S

/-- submitTransaction at the byte level: decode the payload (decoded is
none when decoding throws), submit through the verify path, and whenever
the result is not None deliver an invalid receipt through the callback
when one is present (notifyInvalidReceipt). -/
def submitTransactionBytes (decoded : Option Tx) (vver : TransactionStatus) (now : Nat)
    (hasCallback : Bool) (S : MemoryStorage) : TransactionStatus × MemoryStorage × Bool :=
  match decoded with
  | Option.none => (TransactionStatus.malform, S, hasCallback)
  | Option.some tx =>
    let p := submitTransaction TransactionStatus.none vver now tx hasCallback false S
    if p.1 ≠ TransactionStatus.none then (p.1, p.2.1, p.2.2 || hasCallback) else p

/-- One iteration of batchMarkTxs for a single hash: missing hashes are
skipped; when unsealing, a transaction whose batch hash is nonzero and
differs from the argument has already been re-sealed by a newer proposal
and is skipped; otherwise the sealed counter is adjusted according to the
transition, the sealed flag is set, and on sealing the batch identity is
recorded. -/
def markTxStep (batchId : Int) (batchHash : Nat) (sealFlag : Bool)
    (S : MemoryStorage) (h : Nat) : MemoryStorage :=
  match findTx h S.txsTable with
  | Option.none => S
  | Option.some tx =>
    if tx.batchHash ≠ 0 ∧ tx.batchHash ≠ batchHash ∧ sealFlag = false then S
    else
      { S with
        sealedTxsSize :=
          if sealFlag = true ∧ tx.sealed = false then inc64 S.sealedTxsSize
          else if sealFlag = false ∧ tx.sealed = true then dec64 S.sealedTxsSize
          else S.sealedTxsSize
        txsTable := mutateTx h
          (fun t =>
            if sealFlag then { t with sealed := sealFlag, batchId := batchId, batchHash := batchHash }
            else { t with sealed := sealFlag })
          S.txsTable }

/-- batchMarkTxs: mark every listed hash, then notify the unsealed size. -/
def batchMarkTxs (hashes : List Nat) (batchId : Int) (batchHash : Nat) (sealFlag : Bool)
    (S : MemoryStorage) : MemoryStorage :=
  notifyUnsealedTxsSize (hashes.foldl (markTxStep batchId batchHash sealFlag) S)

/-- batchMarkAllTxs: set the sealed flag on every transaction (on unseal
also reset the batch identity), set the sealed counter to the table size
or zero, then notify the unsealed size. -/
def batchMarkAllTxs (sealFlag : Bool) (S : MemoryStorage) : MemoryStorage :=
  let table1 := S.txsTable.map (fun t =>
    if sealFlag then { t with sealed := sealFlag }
    else { t with sealed := sealFlag, batchId := -1, batchHash := 0 })
  notifyUnsealedTxsSize
    { S with
      txsTable := table1
      sealedTxsSize := if sealFlag then table1.length else 0 }

/-- The accumulator of the batchFetchTxs scan.  txsTable collects the
already-visited entries (with their in-place mutations); txsList and
sysTxsList are the two output metadata lists; stopped models the break on
reaching the limit; checked is specification instrumentation recording the
transactions on which the submitted-to-chain oracle was consulted. -/
structure FetchAcc where
  txsTable : List Tx
  invalidTxs : List Nat
  invalidNonces : List Int
  sealedTxsSize : Nat
  txsList : List TransactionMetaData
  sysTxsList : List TransactionMetaData
  stopped : Bool
  checked : List Tx
deriving DecidableEq

/-- Mutations applied to an emitted transaction: take the submit callback
and seal with the sentinel batch identity. -/
def sealFetchedTx (tx : Tx) : Tx :=
  { tx with hasSubmitCallback := false, sealed := true, batchId := -1, batchHash := 0 }

/-- The metadata record batchFetchTxs builds for an emitted transaction. -/
def fetchMeta (tx : Tx) : TransactionMetaData :=
  { hash := tx.hash, toAddr := tx.toAddr, source := "From rpc" }

/-- End of an emitting iteration: stop the scan once the two output lists
have reached the limit. -/
def fetchFinish (txsLimit : Nat) (acc3 : FetchAcc) : FetchAcc :=
  if txsLimit ≤ acc3.txsList.length + acc3.sysTxsList.length then { acc3 with stopped := true }
  else acc3

/-- One iteration of the batchFetchTxs scan over a table entry.  In source
order: skip hashes in the invalid set; consult submittedToChain, skipping
on NonceCheckFail and invalidating (hash and nonce) on BlockLimitCheckFail
for unsealed transactions; skip avoided hashes; skip sealed transactions
when avoiding duplicates; otherwise emit metadata to the system or user
list, take the submit callback, bump the sealed counter for a previously
unsealed transaction, seal it with the sentinel batch identity (-1, 0),
and stop once the two output lists reach the limit. -/
def batchFetchStep (v : Tx → TransactionStatus) (txsLimit : Nat) (avoidTxs : List Nat)
    (avoidDuplicate : Bool) (acc : FetchAcc) (tx : Tx) : FetchAcc :=
  if acc.stopped then { acc with txsTable := acc.txsTable ++ [tx] }
  else if tx.hash ∈ acc.invalidTxs then { acc with txsTable := acc.txsTable ++ [tx] }
  else if v tx = TransactionStatus.nonceCheckFail then
    { acc with
      txsTable := acc.txsTable ++ [tx]
      checked := acc.checked ++ [tx] }
  else if v tx = TransactionStatus.blockLimitCheckFail ∧ tx.sealed = false then
    { acc with
      txsTable := acc.txsTable ++ [tx]
      checked := acc.checked ++ [tx]
      invalidTxs := setInsert tx.hash acc.invalidTxs
      invalidNonces := setInsert tx.nonce acc.invalidNonces }
  else if tx.hash ∈ avoidTxs then
    { acc with
      txsTable := acc.txsTable ++ [tx]
      checked := acc.checked ++ [tx] }
  else if avoidDuplicate ∧ tx.sealed = true then
    { acc with
      txsTable := acc.txsTable ++ [tx]
      checked := acc.checked ++ [tx] }
  else if tx.systemTx then
    fetchFinish txsLimit
      { acc with
        txsTable := acc.txsTable ++ [sealFetchedTx tx]
        checked := acc.checked ++ [tx]
        sysTxsList := acc.sysTxsList ++ [fetchMeta tx]
        sealedTxsSize := if tx.sealed = false then inc64 acc.sealedTxsSize else acc.sealedTxsSize }
  else
    fetchFinish txsLimit
      { acc with
        txsTable := acc.txsTable ++ [sealFetchedTx tx]
        checked := acc.checked ++ [tx]
        txsList := acc.txsList ++ [fetchMeta tx]
        sealedTxsSize := if tx.sealed = false then inc64 acc.sealedTxsSize else acc.sealedTxsSize }

/-- batchFetchTxs: scan the whole table with batchFetchStep starting from
the given output lists (the blocks passed in by the sealer), write the
mutated table, sets and counter back into the state, and notify the
unsealed size.  The final removeInvalidTxs call of the source only
enqueues an asynchronous purge job on the notifier pool and does not
change the storage state within the call. -/
def batchFetchTxs (v : Tx → TransactionStatus) (txsLimit : Nat) (avoidTxs : List Nat)
    (avoidDuplicate : Bool) (txsList0 sysTxsList0 : List TransactionMetaData)
    (S : MemoryStorage) : MemoryStorage × FetchAcc :=
  let acc0 : FetchAcc :=
    { txsTable := []
      invalidTxs := S.invalidTxs
      invalidNonces := S.invalidNonces
      sealedTxsSize := S.sealedTxsSize
      txsList := txsList0
      sysTxsList := sysTxsList0
      stopped := false
      checked := [] }
  let acc := S.txsTable.foldl (batchFetchStep v txsLimit avoidTxs avoidDuplicate) acc0
  let S1 := { S with
    txsTable := acc.txsTable
    invalidTxs := acc.invalidTxs
    invalidNonces := acc.invalidNonces
    sealedTxsSize := acc.sealedTxsSize }
  (notifyUnsealedTxsSize S1, acc)

/-- First loop of filterUnknownTxs: every known hash records the peer in
the known-peers set of its transaction. -/
def appendKnownPeer (peer : Nat) (table : List Tx) (h : Nat) : List Tx :=
  mutateTx h (fun t => { t with knownPeers := setInsert peer t.knownPeers }) table

/-- Second loop of filterUnknownTxs: collect the hashes that are neither
in the table nor already in the missed set, inserting each into the missed
set as it is collected. -/
def collectUnknown (table : List Tx) : List Nat → List Nat → List Nat → List Nat × List Nat
  | [], missed, acc => (acc, missed)
  | h :: rest, missed, acc =>
    if existTx h table then collectUnknown table rest missed acc
    else if h ∈ missed then collectUnknown table rest missed acc
    else collectUnknown table rest (setInsert h missed) (acc ++ [h])

/-- filterUnknownTxs: record the peer on every known hash, collect the
unknown hashes into the missed set, and clear the missed set when its size
has reached the pool limit. -/
def filterUnknownTxs (txsHashList : List Nat) (peer : Nat) (S : MemoryStorage) :
    List Nat × MemoryStorage :=
  let table1 := txsHashList.foldl (appendKnownPeer peer) S.txsTable
  let p := collectUnknown table1 txsHashList S.missedTxs []
  let missed1 := if S.poolLimit ≤ p.2.length then [] else p.2
  (p.1, { S with txsTable := table1, missedTxs := missed1 })

/-- The sealed-count invariant: the counter m_sealedTxsSize equals the
number of transactions in the table whose sealed flag is set. -/
def sealedCountInv (S : MemoryStorage) : Prop :=
  S.sealedTxsSize = countSealed S.txsTable
/-- Concrete transactions and states used to instantiate the theorems below
on closed inputs. -/
def oldC2w : Tx :=
  { hash := 7, nonce := 1, toAddr := 0, importTime := 0, sealed := false, batchId := -1,
    batchHash := 0, synced := false, systemTx := false, knownPeers := [], hasSubmitCallback := false }

def txC2w : Tx := { oldC2w with batchId := 3, batchHash := 9 }

def stateC2w : MemoryStorage :=
  { txsTable := [oldC2w], sealedTxsSize := 0, missedTxs := [], invalidTxs := [],
    invalidNonces := [], blockNumber := 0, blockNumberUpdatedTime := 0,
    hasUnsealedNotifier := false, poolLimit := 10, precommitQueue := [] }

def txC3w : Tx :=
  { hash := 5, nonce := 2, toAddr := 0, importTime := 0, sealed := false, batchId := -1,
    batchHash := 0, synced := false, systemTx := false, knownPeers := [], hasSubmitCallback := false }

def stateC3w : MemoryStorage :=
  { txsTable := [oldC2w], sealedTxsSize := 0, missedTxs := [], invalidTxs := [],
    invalidNonces := [], blockNumber := 0, blockNumberUpdatedTime := 0,
    hasUnsealedNotifier := false, poolLimit := 1, precommitQueue := [] }

def stateC10w : MemoryStorage :=
  { txsTable := [oldC2w], sealedTxsSize := 0, missedTxs := [], invalidTxs := [],
    invalidNonces := [], blockNumber := 0, blockNumberUpdatedTime := 0,
    hasUnsealedNotifier := true, poolLimit := 10, precommitQueue := [] }

def stateC10c : MemoryStorage :=
  { txsTable := [], sealedTxsSize := 1, missedTxs := [], invalidTxs := [],
    invalidNonces := [], blockNumber := 0, blockNumberUpdatedTime := 0,
    hasUnsealedNotifier := true, poolLimit := 10, precommitQueue := [] }

def txC4w : Tx := { oldC2w with hash := 3, sealed := true, batchId := 5, batchHash := 13 }

def stateC4w : MemoryStorage := { stateC2w with txsTable := [txC4w], sealedTxsSize := 1 }

def txC5w : Tx :=
  { hash := 11, nonce := 4, toAddr := 0, importTime := 0, sealed := false, batchId := -1,
    batchHash := 0, synced := false, systemTx := false, knownPeers := [], hasSubmitCallback := false }

def stateC5w : MemoryStorage :=
  { txsTable := [txC5w], sealedTxsSize := 0, missedTxs := [], invalidTxs := [],
    invalidNonces := [], blockNumber := 0, blockNumberUpdatedTime := 0,
    hasUnsealedNotifier := false, poolLimit := 10, precommitQueue := [] }

def vC5w : Tx → TransactionStatus := fun _ => TransactionStatus.blockLimitCheckFail

def txC1w : Tx :=
  { hash := 9, nonce := 5, toAddr := 0, importTime := 0, sealed := false, batchId := -1,
    batchHash := 0, synced := false, systemTx := false, knownPeers := [], hasSubmitCallback := false }

def stateC1w : MemoryStorage :=
  { txsTable := [txC1w], sealedTxsSize := 0, missedTxs := [], invalidTxs := [],
    invalidNonces := [], blockNumber := 0, blockNumberUpdatedTime := 0,
    hasUnsealedNotifier := true, poolLimit := 10, precommitQueue := [] }

def txC1c : Tx :=
  { hash := 21, nonce := 6, toAddr := 0, importTime := 0, sealed := true, batchId := 2,
    batchHash := 3, synced := false, systemTx := false, knownPeers := [], hasSubmitCallback := false }

def stateC1c : MemoryStorage :=
  { txsTable := [], sealedTxsSize := 0, missedTxs := [], invalidTxs := [],
    invalidNonces := [], blockNumber := 0, blockNumberUpdatedTime := 0,
    hasUnsealedNotifier := false, poolLimit := 10, precommitQueue := [] }

theorem unSealed_snd_blockNumber (S : MemoryStorage) :
    (unSealedTxsSizeWithoutLock S).2.blockNumber = S.blockNumber := by
  unfold unSealedTxsSizeWithoutLock; split <;> rfl

theorem notify_blockNumber (S : MemoryStorage) :
    (notifyUnsealedTxsSize S).blockNumber = S.blockNumber := by
  unfold notifyUnsealedTxsSize
  split
  · exact unSealed_snd_blockNumber S
  · rfl

theorem removeWithoutLock_blockNumber (h : Nat) (S : MemoryStorage) :
    (removeWithoutLock h S).2.blockNumber = S.blockNumber := by
  unfold removeWithoutLock
  cases findTx h S.txsTable <;> rfl

theorem removeSubmitted_blockNumber (r : TransactionSubmitResult) (S : MemoryStorage) :
    (removeSubmittedTxWithoutLock r S).2.blockNumber = S.blockNumber := by
  unfold removeSubmittedTxWithoutLock
  have h1 := removeWithoutLock_blockNumber r.txHash S
  cases hp : (removeWithoutLock r.txHash S).1 <;>
    simp [hp, notify_blockNumber, h1]

theorem batchRemoveLoop_blockNumber (results : List TransactionSubmitResult) :
    ∀ S nonceList succCount,
      (batchRemoveLoop results S nonceList succCount).1.blockNumber = S.blockNumber := by
  induction results with
  | nil => intro S nonceList succCount; rfl
  | cons r rest ih =>
    intro S nonceList succCount
    have h1 := removeSubmitted_blockNumber r S
    unfold batchRemoveLoop
    cases hp : (removeSubmittedTxWithoutLock r S).1 <;> simp [hp]
    · split <;> rw [ih] <;> exact h1
    · rw [ih]; exact h1

/-- C6: block_number is monotonically non-decreasing: batchRemove sets the
block number to the maximum of the previous block number and the batch id,
so no call decreases it. -/
theorem c6_batchRemove_blockNumber_max
    (batchId : Int) (results : List TransactionSubmitResult) (now : Nat)
    (S : MemoryStorage) :
    (batchRemove batchId results now S).1.blockNumber = max S.blockNumber batchId := by
  have h := batchRemoveLoop_blockNumber results { S with blockNumberUpdatedTime := now } [] 0
  simp only [batchRemove]
  split <;> simp_all <;> omega

theorem preCommitRun_spec (f : Nat → Bool) (S : MemoryStorage) :
    ∀ n r, 4 - r ≤ n → (preCommitRun f r S).2 = S ∧ (preCommitRun f r S).1 ≤ 4 - r := by
  intro n
  induction n with
  | zero =>
    intro r hr
    unfold preCommitRun
    split
    · exact ⟨rfl, by omega⟩
    · omega
  | succ n ih =>
    intro r hr
    unfold preCommitRun
    split
    · exact ⟨rfl, by omega⟩
    · split
      · obtain ⟨h1, h2⟩ := ih (r + 1) (by omega)
        refine ⟨by simpa using h1, by simp; omega⟩
      · exact ⟨rfl, by omega⟩

theorem preCommitRun_allFail (S : MemoryStorage) :
    ∀ r, r ≤ 4 → (preCommitRun (fun _ => true) r S).1 = 4 - r := by
  intro r hr
  interval_cases r <;> simp [preCommitRun]

/-- C7: the asynchronous ledger pre-commit makes at most 4 store attempts
in total; when every store fails it makes exactly 4 (the initial attempt
plus 3 retries) and then gives up, leaving the storage state, and in
particular the transaction table, untouched. -/
theorem c7_preCommit_bounded_retry (storeFails : Nat → Bool) (S : MemoryStorage) :
    (preCommitRun storeFails 0 S).1 ≤ 4 ∧
    (preCommitRun (fun _ => true) 0 S).1 = 4 ∧
    (preCommitRun storeFails 0 S).2 = S := by
  obtain ⟨h1, h2⟩ := preCommitRun_spec storeFails S 4 0 (by omega)
  refine ⟨by simpa using h2, by simpa using preCommitRun_allFail S 0 (by omega), h1⟩

/-- C9: the unsealed-size query returns the table size minus the sealed
counter when the counter does not exceed the table size, and 0 otherwise;
over the integers this is exactly max 0 (size - sealed_count), never
negative. -/
theorem c9_unsealed_size_max (S : MemoryStorage) :
    ((unSealedTxsSizeWithoutLock S).1 : Int) =
      max 0 ((S.txsTable.length : Int) - (S.sealedTxsSize : Int)) := by
  unfold unSealedTxsSizeWithoutLock
  split <;> simp <;> omega


theorem W64_eq : W64 = 18446744073709551616 := by norm_num [W64]

theorem inc64_eq (n : Nat) (h : n + 1 < W64) : inc64 n = n + 1 := Nat.mod_eq_of_lt h

theorem dec64_eq (n : Nat) (h1 : 1 ≤ n) (h2 : n < W64) : dec64 n = n - 1 := by
  unfold dec64
  have hW := W64_eq
  have h3 : n + (W64 - 1) = (n - 1) + W64 := by omega
  rw [h3, Nat.add_mod_right]
  exact Nat.mod_eq_of_lt (by omega)

theorem findTx_cons (h : Nat) (t : Tx) (rest : List Tx) :
    findTx h (t :: rest) = if t.hash = h then Option.some t else findTx h rest := by
  unfold findTx
  by_cases ht : t.hash = h <;> simp [List.find?, ht]

theorem existTx_cons (h : Nat) (t : Tx) (rest : List Tx) :
    existTx h (t :: rest) = (decide (t.hash = h) || existTx h rest) := by
  simp [existTx]

theorem countSealed_cons (t : Tx) (rest : List Tx) :
    countSealed (t :: rest) = (if t.sealed then 1 else 0) + countSealed rest := by
  unfold countSealed
  by_cases hs : t.sealed <;> simp [List.filter_cons, hs] <;> omega

theorem existTx_eq_isSome (h : Nat) (table : List Tx) :
    existTx h table = (findTx h table).isSome := by
  induction table with
  | nil => rfl
  | cons t rest ih =>
    rw [existTx_cons, findTx_cons]
    by_cases ht : t.hash = h <;> simp [ht, ih]

theorem findTx_mutateTx_self (h : Nat) (f : Tx → Tx) (hf : ∀ t, (f t).hash = t.hash)
    (table : List Tx) :
    findTx h (mutateTx h f table) = Option.map f (findTx h table) := by
  induction table with
  | nil => rfl
  | cons t rest ih =>
    simp only [mutateTx, List.map_cons]
    by_cases ht : t.hash = h
    · rw [if_pos ht, findTx_cons, if_pos (by rw [hf t]; exact ht), findTx_cons, if_pos ht]
      rfl
    · rw [if_neg ht, findTx_cons, if_neg ht, findTx_cons, if_neg ht]
      exact ih

theorem findTx_mutateTx_ne (h h2 : Nat) (f : Tx → Tx) (hf : ∀ t, (f t).hash = t.hash)
    (hne : h2 ≠ h) (table : List Tx) :
    findTx h2 (mutateTx h f table) = findTx h2 table := by
  induction table with
  | nil => rfl
  | cons t rest ih =>
    simp only [mutateTx, List.map_cons]
    by_cases ht : t.hash = h
    · rw [if_pos ht, findTx_cons, findTx_cons]
      have hfh : (f t).hash = t.hash := hf t
      by_cases h2t : t.hash = h2
      · exact absurd (h2t ▸ ht) (by rw [h2t] at ht; exact fun _ => hne (ht ▸ rfl))
      · rw [if_neg (by rw [hfh]; exact h2t), if_neg h2t]
        exact ih
    · rw [if_neg ht, findTx_cons, findTx_cons]
      by_cases h2t : t.hash = h2
      · rw [if_pos h2t, if_pos h2t]
      · rw [if_neg h2t, if_neg h2t]
        exact ih

/-- C2 (amended): for every enforce_submit call on a transaction whose
hash already exists in TxTable and for which the submitted-to-chain check
does not answer NonceCheckFail: if the existing entry is unsealed the call
seals it with the batch id and batch hash carried by the submitted
transaction, increments sealed_count by one and returns None; if the
existing entry is sealed with the same (batch_id, batch_hash) pair the
call returns None and changes nothing; otherwise the call returns
AlreadyInTxPool and changes nothing. -/
theorem c2_enforce_existing (vres : TransactionStatus) (tx old : Tx) (S : MemoryStorage)
    (hv : vres ≠ TransactionStatus.nonceCheckFail)
    (hfind : findTx tx.hash S.txsTable = Option.some old)
    (hbound : S.sealedTxsSize + 1 < W64) :
    (old.sealed = false →
      enforceSubmitTransaction vres tx S =
        (TransactionStatus.none,
          { S with
            sealedTxsSize := S.sealedTxsSize + 1
            txsTable := mutateTx tx.hash
              (fun t => { t with sealed := true, batchId := tx.batchId, batchHash := tx.batchHash })
              S.txsTable }) ∧
      findTx tx.hash (enforceSubmitTransaction vres tx S).2.txsTable =
        Option.some { old with sealed := true, batchId := tx.batchId, batchHash := tx.batchHash }) ∧
    (old.sealed = true → old.batchId = tx.batchId → old.batchHash = tx.batchHash →
      enforceSubmitTransaction vres tx S = (TransactionStatus.none, S)) ∧
    (old.sealed = true → ¬(old.batchId = tx.batchId ∧ old.batchHash = tx.batchHash) →
      enforceSubmitTransaction vres tx S = (TransactionStatus.alreadyInTxPool, S)) := by
  refine ⟨?_, ?_, ?_⟩
  · intro hs
    have heq : enforceSubmitTransaction vres tx S =
        (TransactionStatus.none,
          { S with
            sealedTxsSize := inc64 S.sealedTxsSize
            txsTable := mutateTx tx.hash
              (fun t => { t with sealed := true, batchId := tx.batchId, batchHash := tx.batchHash })
              S.txsTable }) := by
      unfold enforceSubmitTransaction
      rw [if_neg hv, hfind]
      simp [hs]
    refine ⟨by rw [heq, inc64_eq _ hbound], ?_⟩
    rw [heq]
    have := findTx_mutateTx_self tx.hash
      (fun t => { t with sealed := true, batchId := tx.batchId, batchHash := tx.batchHash })
      (fun t => rfl) S.txsTable
    rw [this, hfind]
    rfl
  · intro hs hbid hbh
    unfold enforceSubmitTransaction
    rw [if_neg hv, hfind]
    simp [hs, hbid, hbh]
  · intro hs hne
    unfold enforceSubmitTransaction
    rw [if_neg hv, hfind]
    simp only [hs]
    rw [if_neg (by simp), if_neg hne]

theorem c2_enforce_existing_witness :
    (enforceSubmitTransaction TransactionStatus.none txC2w stateC2w).1 =
      TransactionStatus.none ∧
    (enforceSubmitTransaction TransactionStatus.none txC2w stateC2w).2.sealedTxsSize =
      stateC2w.sealedTxsSize + 1 := by
  have h := (c2_enforce_existing TransactionStatus.none txC2w oldC2w stateC2w
    (by decide) (by decide) (by rw [W64_eq]; decide)).1 (by decide)
  rw [h.1]
  exact ⟨rfl, rfl⟩

theorem c2_counterexample :
    findTx txC2w.hash stateC2w.txsTable = Option.some oldC2w ∧
    oldC2w.sealed = false ∧
    (enforceSubmitTransaction TransactionStatus.nonceCheckFail txC2w stateC2w).1 ≠
      TransactionStatus.none ∧
    (enforceSubmitTransaction TransactionStatus.nonceCheckFail txC2w stateC2w).2 = stateC2w := by
  refine ⟨by decide, by decide, ?_, ?_⟩ <;> decide

/-- C3 (amended): when the table already holds at least pool_limit entries
the verify path returns TxPoolIsFull with the state, in particular
TxTable, unchanged; the verify function itself does not invoke the submit
callback, but a submission entered through the byte-level submit wrapper
then has an invalid receipt with status TxPoolIsFull delivered through the
callback when one is present. -/
theorem c3_pool_full (vver : TransactionStatus) (now : Nat) (tx : Tx) (hasCallback : Bool)
    (S : MemoryStorage) (hfull : S.poolLimit ≤ size S) :
    verifyAndSubmitTransaction vver now tx hasCallback S =
      (TransactionStatus.txPoolIsFull, S, false) ∧
    submitTransactionBytes (Option.some tx) vver now hasCallback S =
      (TransactionStatus.txPoolIsFull, S, hasCallback) := by
  have h1 : verifyAndSubmitTransaction vver now tx hasCallback S =
      (TransactionStatus.txPoolIsFull, S, false) := by
    unfold verifyAndSubmitTransaction
    rw [if_pos hfull]
  refine ⟨h1, ?_⟩
  unfold submitTransactionBytes submitTransaction
  simp [h1]

theorem c3_pool_full_witness :
    verifyAndSubmitTransaction TransactionStatus.none 0 txC3w true stateC3w =
      (TransactionStatus.txPoolIsFull, stateC3w, false) :=
  (c3_pool_full TransactionStatus.none 0 txC3w true stateC3w (by decide)).1

theorem c3_counterexample :
    stateC3w.poolLimit ≤ size stateC3w ∧
    (submitTransactionBytes (Option.some txC3w) TransactionStatus.none 0 true stateC3w).1 =
      TransactionStatus.txPoolIsFull ∧
    (submitTransactionBytes (Option.some txC3w) TransactionStatus.none 0 true stateC3w).2.2 =
      true := by
  refine ⟨by decide, by decide, by decide⟩

/-- C10 (amended): for every hash absent from TxTable, remove returns a
null transaction and, provided sealed_count does not exceed the table size
(which the sealed-count invariant guarantees at quiescent states), leaves
the whole state unchanged: TxTable, sealed_count, block_number and the
invalid sets are exactly as before the call.  Without that proviso the
unsealed-size notification issued by remove clamps sealed_count down to
the table size. -/
theorem c10_remove_absent_noop (h : Nat) (S : MemoryStorage)
    (habs : findTx h S.txsTable = Option.none)
    (hcnt : S.sealedTxsSize ≤ S.txsTable.length) :
    remove h S = (Option.none, S) := by
  unfold remove removeWithoutLock notifyUnsealedTxsSize unSealedTxsSizeWithoutLock
  rw [habs]
  simp only
  split
  · split
    · omega
    · rfl
  · rfl

theorem c10_remove_absent_noop_witness :
    remove 5 stateC10w = (Option.none, stateC10w) :=
  c10_remove_absent_noop 5 stateC10w (by decide) (by decide)

theorem c10_counterexample :
    findTx 5 stateC10c.txsTable = Option.none ∧
    (remove 5 stateC10c).1 = Option.none ∧
    (remove 5 stateC10c).2.sealedTxsSize ≠ stateC10c.sealedTxsSize := by
  refine ⟨by decide, by decide, by decide⟩


theorem notify_txsTable (S : MemoryStorage) :
    (notifyUnsealedTxsSize S).txsTable = S.txsTable := by
  unfold notifyUnsealedTxsSize unSealedTxsSizeWithoutLock
  split
  · split <;> rfl
  · rfl

theorem markTxStep_hash_preserving (batchId : Int) (batchHash : Nat) (sealFlag : Bool) :
    ∀ t : Tx,
      ((fun t : Tx =>
        if sealFlag then { t with sealed := sealFlag, batchId := batchId, batchHash := batchHash }
        else { t with sealed := sealFlag }) t).hash = t.hash := by
  intro t
  by_cases hs : sealFlag <;> simp [hs]

theorem markTxStep_preserves_stale (batchId : Int) (batchHash : Nat) (tx : Tx)
    (S : MemoryStorage) (h2 : Nat)
    (hfind : findTx tx.hash S.txsTable = Option.some tx)
    (hnz : tx.batchHash ≠ 0) (hne : tx.batchHash ≠ batchHash) :
    findTx tx.hash (markTxStep batchId batchHash false S h2).txsTable = Option.some tx := by
  unfold markTxStep
  cases hf2 : findTx h2 S.txsTable with
  | none => exact hfind
  | some t0 =>
    dsimp only
    by_cases hh : tx.hash = h2
    · have ht0 : t0 = tx := by
        rw [hh] at hfind
        rw [hfind] at hf2
        exact (Option.some.inj hf2).symm
      subst ht0
      rw [if_pos ⟨hnz, hne, rfl⟩]
      exact hfind
    · by_cases hguard : t0.batchHash ≠ 0 ∧ t0.batchHash ≠ batchHash ∧ (false : Bool) = false
      · rw [if_pos hguard]
        exact hfind
      · rw [if_neg hguard]
        dsimp only
        rw [findTx_mutateTx_ne h2 tx.hash _ (markTxStep_hash_preserving batchId batchHash false) hh]
        exact hfind

theorem foldl_markTxStep_preserves_stale (batchId : Int) (batchHash : Nat) (tx : Tx)
    (hnz : tx.batchHash ≠ 0) (hne : tx.batchHash ≠ batchHash) :
    ∀ (hashes : List Nat) (S : MemoryStorage),
      findTx tx.hash S.txsTable = Option.some tx →
      findTx tx.hash ((hashes.foldl (markTxStep batchId batchHash false) S)).txsTable =
        Option.some tx := by
  intro hashes
  induction hashes with
  | nil => intro S hfind; exact hfind
  | cons h2 rest ih =>
    intro S hfind
    exact ih _ (markTxStep_preserves_stale batchId batchHash tx S h2 hfind hnz hne)

/-- C4: for every transaction stored in TxTable whose batch hash is
nonzero and differs from the batch hash argument, a batchMarkTxs call with
seal flag false is a no-op on that transaction: the entry stored under its
hash afterwards is the identical record, so its sealed flag, batch id,
batch hash and its contribution to sealed_count are all unchanged. -/
theorem c4_stale_unseal_noop (hashes : List Nat) (batchId : Int) (batchHash : Nat)
    (tx : Tx) (S : MemoryStorage)
    (hfind : findTx tx.hash S.txsTable = Option.some tx)
    (hnz : tx.batchHash ≠ 0) (hne : tx.batchHash ≠ batchHash) :
    findTx tx.hash (batchMarkTxs hashes batchId batchHash false S).txsTable =
      Option.some tx := by
  unfold batchMarkTxs
  rw [notify_txsTable]
  exact foldl_markTxStep_preserves_stale batchId batchHash tx hnz hne hashes S hfind

theorem c4_stale_unseal_noop_witness :
    findTx txC4w.hash (batchMarkTxs [3] 4 14 false stateC4w).txsTable = Option.some txC4w :=
  c4_stale_unseal_noop [3] 4 14 txC4w stateC4w (by decide) (by decide) (by decide)


theorem setInsert_of_not_mem {α : Type} [DecidableEq α] (x : α) (s : List α) (h : x ∉ s) :
    setInsert x s = s ++ [x] := by
  unfold setInsert
  exact if_neg h

theorem mutateTx_map_hash (h : Nat) (f : Tx → Tx) (hf : ∀ t, (f t).hash = t.hash)
    (table : List Tx) :
    (mutateTx h f table).map Tx.hash = table.map Tx.hash := by
  unfold mutateTx
  rw [List.map_map]
  apply List.map_congr_left
  intro t ht
  by_cases h2 : t.hash = h <;> simp [h2, hf]

theorem existTx_congr (table1 table2 : List Tx)
    (hmap : table1.map Tx.hash = table2.map Tx.hash) (x : Nat) :
    existTx x table1 = existTx x table2 := by
  have hgen : ∀ tbl : List Tx,
      (existTx x tbl) = ((tbl.map Tx.hash).any fun h2 => decide (h2 = x)) := by
    intro tbl
    induction tbl with
    | nil => rfl
    | cons t rest ih => simp [existTx, List.any_cons, List.map_cons] at *; rw [ih]
  rw [hgen, hgen, hmap]

theorem foldl_appendKnownPeer_map_hash (peer : Nat) :
    ∀ (hs : List Nat) (table : List Tx),
      ((hs.foldl (appendKnownPeer peer) table).map Tx.hash) = table.map Tx.hash := by
  intro hs
  induction hs with
  | nil => intro table; rfl
  | cons h rest ih =>
    intro table
    rw [List.foldl_cons, ih]
    unfold appendKnownPeer
    exact mutateTx_map_hash h
      (fun t => { t with knownPeers := setInsert peer t.knownPeers }) (fun t => rfl) table

theorem collectUnknown_spec (table : List Tx) :
    ∀ (l missed acc : List Nat),
      (∀ x, x ∈ (collectUnknown table l missed acc).1 ↔
        (x ∈ acc ∨ (x ∈ l ∧ existTx x table = false ∧ x ∉ missed))) ∧
      (∀ x, x ∈ (collectUnknown table l missed acc).2 ↔
        (x ∈ missed ∨ (x ∈ l ∧ existTx x table = false ∧ x ∉ missed))) := by
  intro l
  induction l with
  | nil =>
    intro missed acc
    constructor <;> intro x <;> simp [collectUnknown]
  | cons h rest ih =>
    intro missed acc
    by_cases hex : existTx h table = true
    · have hstep : collectUnknown table (h :: rest) missed acc =
          collectUnknown table rest missed acc := by
        conv_lhs => unfold collectUnknown
        rw [if_pos hex]
      rw [hstep]
      obtain ⟨ih1, ih2⟩ := ih missed acc
      constructor <;> intro x
      · rw [ih1 x]
        by_cases hx : x = h
        · subst hx; simp [hex]
        · simp [hx]
      · rw [ih2 x]
        by_cases hx : x = h
        · subst hx; simp [hex]
        · simp [hx]
    · by_cases hm : h ∈ missed
      · have hstep : collectUnknown table (h :: rest) missed acc =
            collectUnknown table rest missed acc := by
          conv_lhs => unfold collectUnknown
          rw [if_neg hex, if_pos hm]
        rw [hstep]
        obtain ⟨ih1, ih2⟩ := ih missed acc
        constructor <;> intro x
        · rw [ih1 x]
          by_cases hx : x = h
          · subst hx; simp [hm]
          · simp [hx]
        · rw [ih2 x]
          by_cases hx : x = h
          · subst hx; simp [hm]
          · simp [hx]
      · have hstep : collectUnknown table (h :: rest) missed acc =
            collectUnknown table rest (missed ++ [h]) (acc ++ [h]) := by
          conv_lhs => unfold collectUnknown
          rw [if_neg hex, if_neg hm, setInsert_of_not_mem h missed hm]
        rw [hstep]
        obtain ⟨ih1, ih2⟩ := ih (missed ++ [h]) (acc ++ [h])
        have hexf : existTx h table = false := by
          cases hex2 : existTx h table
          · rfl
          · exact absurd hex2 hex
        constructor <;> intro x
        · rw [ih1 x]
          by_cases hx : x = h
          · subst hx; simp [hexf, hm]
          · simp [hx]
        · rw [ih2 x]
          by_cases hx : x = h
          · subst hx; simp [hexf, hm]
          · simp [hx]

/-- C8: filterUnknownTxs returns exactly those input hashes that are
neither in TxTable nor already in MissedSet; the missed set after the
insertions contains exactly the old missed hashes plus the returned ones,
and when its size has reached the pool limit it is cleared before the call
returns. -/
theorem c8_filterUnknownTxs (txsHashList : List Nat) (peer : Nat) (S : MemoryStorage) :
    (∀ x, x ∈ (filterUnknownTxs txsHashList peer S).1 ↔
      (x ∈ txsHashList ∧ existTx x S.txsTable = false ∧ x ∉ S.missedTxs)) ∧
    (∃ mid : List Nat,
      (∀ x, x ∈ mid ↔ (x ∈ S.missedTxs ∨ x ∈ (filterUnknownTxs txsHashList peer S).1)) ∧
      (filterUnknownTxs txsHashList peer S).2.missedTxs =
        (if S.poolLimit ≤ mid.length then [] else mid)) := by
  have hmap := foldl_appendKnownPeer_map_hash peer txsHashList S.txsTable
  obtain ⟨hc1, hc2⟩ := collectUnknown_spec (txsHashList.foldl (appendKnownPeer peer) S.txsTable)
    txsHashList S.missedTxs []
  have hout : ∀ x, x ∈ (filterUnknownTxs txsHashList peer S).1 ↔
      (x ∈ txsHashList ∧ existTx x S.txsTable = false ∧ x ∉ S.missedTxs) := by
    intro x
    have := hc1 x
    rw [existTx_congr _ _ hmap x] at this
    simpa [filterUnknownTxs] using this
  refine ⟨hout, ⟨(collectUnknown (txsHashList.foldl (appendKnownPeer peer) S.txsTable)
    txsHashList S.missedTxs []).2, ?_, ?_⟩⟩
  · intro x
    rw [hc2 x, hout x, existTx_congr _ _ hmap x]
  · simp [filterUnknownTxs]


theorem mem_setInsert {α : Type} [DecidableEq α] (x y : α) (s : List α) :
    x ∈ setInsert y s ↔ (x ∈ s ∨ x = y) := by
  unfold setInsert
  split
  · constructor
    · intro h2
      exact Or.inl h2
    · intro h2
      rcases h2 with h2 | h2
      · exact h2
      · subst h2; assumption
  · simp [List.mem_append]


/-- Case characterisation of one batchFetchStep iteration: the entry is
passed through untouched (stopped scan or invalid hash), skipped after the
submitted-to-chain check answers NonceCheckFail, invalidated, skipped as
avoided or duplicate, or emitted (to the system or user list) and sealed. -/
theorem batchFetchStep_char (v : Tx → TransactionStatus) (limit : Nat) (avoid : List Nat)
    (dup : Bool) (acc : FetchAcc) (t : Tx) :
    batchFetchStep v limit avoid dup acc t = { acc with txsTable := acc.txsTable ++ [t] } ∨
    (v t = TransactionStatus.nonceCheckFail ∧
      batchFetchStep v limit avoid dup acc t =
        { acc with
          txsTable := acc.txsTable ++ [t]
          checked := acc.checked ++ [t] }) ∨
    (v t = TransactionStatus.blockLimitCheckFail ∧ t.sealed = false ∧
      batchFetchStep v limit avoid dup acc t =
        { acc with
          txsTable := acc.txsTable ++ [t]
          checked := acc.checked ++ [t]
          invalidTxs := setInsert t.hash acc.invalidTxs
          invalidNonces := setInsert t.nonce acc.invalidNonces }) ∨
    (v t ≠ TransactionStatus.nonceCheckFail ∧
      ¬(v t = TransactionStatus.blockLimitCheckFail ∧ t.sealed = false) ∧
      batchFetchStep v limit avoid dup acc t =
        { acc with
          txsTable := acc.txsTable ++ [t]
          checked := acc.checked ++ [t] }) ∨
    (v t ≠ TransactionStatus.nonceCheckFail ∧
      ¬(v t = TransactionStatus.blockLimitCheckFail ∧ t.sealed = false) ∧
      (batchFetchStep v limit avoid dup acc t =
        fetchFinish limit
          { acc with
            txsTable := acc.txsTable ++ [sealFetchedTx t]
            checked := acc.checked ++ [t]
            sysTxsList := acc.sysTxsList ++ [fetchMeta t]
            sealedTxsSize := if t.sealed = false then inc64 acc.sealedTxsSize else acc.sealedTxsSize } ∨
      batchFetchStep v limit avoid dup acc t =
        fetchFinish limit
          { acc with
            txsTable := acc.txsTable ++ [sealFetchedTx t]
            checked := acc.checked ++ [t]
            txsList := acc.txsList ++ [fetchMeta t]
            sealedTxsSize := if t.sealed = false then inc64 acc.sealedTxsSize else acc.sealedTxsSize })) := by
  by_cases hstop : acc.stopped = true
  · refine Or.inl ?_
    unfold batchFetchStep
    rw [if_pos hstop]
  · by_cases hinv : t.hash ∈ acc.invalidTxs
    · refine Or.inl ?_
      unfold batchFetchStep
      rw [if_neg hstop, if_pos hinv]
    · by_cases hv : v t = TransactionStatus.nonceCheckFail
      · refine Or.inr (Or.inl ⟨hv, ?_⟩)
        unfold batchFetchStep
        rw [if_neg hstop, if_neg hinv, if_pos hv]
      · by_cases hbl : v t = TransactionStatus.blockLimitCheckFail ∧ t.sealed = false
        · refine Or.inr (Or.inr (Or.inl ⟨hbl.1, hbl.2, ?_⟩))
          unfold batchFetchStep
          rw [if_neg hstop, if_neg hinv, if_neg hv, if_pos hbl]
        · by_cases havoid : t.hash ∈ avoid
          · refine Or.inr (Or.inr (Or.inr (Or.inl ⟨hv, hbl, ?_⟩)))
            unfold batchFetchStep
            rw [if_neg hstop, if_neg hinv, if_neg hv, if_neg hbl, if_pos havoid]
          · by_cases hdup : dup = true ∧ t.sealed = true
            · refine Or.inr (Or.inr (Or.inr (Or.inl ⟨hv, hbl, ?_⟩)))
              unfold batchFetchStep
              rw [if_neg hstop, if_neg hinv, if_neg hv, if_neg hbl, if_neg havoid, if_pos hdup]
            · by_cases hsys : t.systemTx = true
              · refine Or.inr (Or.inr (Or.inr (Or.inr ⟨hv, hbl, Or.inl ?_⟩)))
                unfold batchFetchStep
                rw [if_neg hstop, if_neg hinv, if_neg hv, if_neg hbl, if_neg havoid,
                  if_neg hdup, if_pos hsys]
              · refine Or.inr (Or.inr (Or.inr (Or.inr ⟨hv, hbl, Or.inr ?_⟩)))
                unfold batchFetchStep
                rw [if_neg hstop, if_neg hinv, if_neg hv, if_neg hbl, if_neg havoid,
                  if_neg hdup, if_neg hsys]


theorem fetchFinish_checked (l : Nat) (a : FetchAcc) : (fetchFinish l a).checked = a.checked := by
  unfold fetchFinish
  split <;> rfl

theorem fetchFinish_invalidTxs (l : Nat) (a : FetchAcc) :
    (fetchFinish l a).invalidTxs = a.invalidTxs := by
  unfold fetchFinish
  split <;> rfl

theorem fetchFinish_invalidNonces (l : Nat) (a : FetchAcc) :
    (fetchFinish l a).invalidNonces = a.invalidNonces := by
  unfold fetchFinish
  split <;> rfl

theorem fetchFinish_txsList (l : Nat) (a : FetchAcc) : (fetchFinish l a).txsList = a.txsList := by
  unfold fetchFinish
  split <;> rfl

theorem fetchFinish_sysTxsList (l : Nat) (a : FetchAcc) :
    (fetchFinish l a).sysTxsList = a.sysTxsList := by
  unfold fetchFinish
  split <;> rfl

theorem fetchFinish_txsTable (l : Nat) (a : FetchAcc) :
    (fetchFinish l a).txsTable = a.txsTable := by
  unfold fetchFinish
  split <;> rfl

theorem fetchFinish_sealedTxsSize (l : Nat) (a : FetchAcc) :
    (fetchFinish l a).sealedTxsSize = a.sealedTxsSize := by
  unfold fetchFinish
  split <;> rfl

theorem batchFetchStep_sub (v : Tx → TransactionStatus) (limit : Nat) (avoid : List Nat)
    (dup : Bool) (acc : FetchAcc) (t : Tx) :
    (∀ t2, t2 ∈ (batchFetchStep v limit avoid dup acc t).checked →
      (t2 ∈ acc.checked ∨ t2 = t)) ∧
    (∀ x, x ∈ (batchFetchStep v limit avoid dup acc t).invalidTxs →
      (x ∈ acc.invalidTxs ∨ x = t.hash)) ∧
    (∀ x, x ∈ (batchFetchStep v limit avoid dup acc t).invalidNonces →
      (x ∈ acc.invalidNonces ∨ x = t.nonce)) ∧
    (∀ m, m ∈ (batchFetchStep v limit avoid dup acc t).txsList →
      (m ∈ acc.txsList ∨ m.hash = t.hash)) ∧
    (∀ m, m ∈ (batchFetchStep v limit avoid dup acc t).sysTxsList →
      (m ∈ acc.sysTxsList ∨ m.hash = t.hash)) ∧
    (∀ x, x ∈ acc.invalidTxs → x ∈ (batchFetchStep v limit avoid dup acc t).invalidTxs) ∧
    (∀ x, x ∈ acc.invalidNonces → x ∈ (batchFetchStep v limit avoid dup acc t).invalidNonces) := by
  rcases batchFetchStep_char v limit avoid dup acc t with
    hc | ⟨h1, hc⟩ | ⟨h1, h2, hc⟩ | ⟨h1, h2, hc⟩ | ⟨h1, h2, hc | hc⟩ <;>
  rw [hc] <;>
  refine ⟨?_, ?_, ?_, ?_, ?_, ?_, ?_⟩ <;>
  intro z hz <;>
  simp only [fetchFinish_checked, fetchFinish_invalidTxs, fetchFinish_invalidNonces,
    fetchFinish_txsList, fetchFinish_sysTxsList, mem_setInsert, List.mem_append,
    List.mem_singleton] at hz ⊢ <;>
  first
  | tauto
  | (rcases hz with hz | rfl
     · exact Or.inl hz
     · exact Or.inr rfl)


theorem fetchLoop_sub (v : Tx → TransactionStatus) (limit : Nat) (avoid : List Nat)
    (dup : Bool) :
    ∀ (l : List Tx) (acc : FetchAcc),
      (∀ t2, t2 ∈ (l.foldl (batchFetchStep v limit avoid dup) acc).checked →
        (t2 ∈ acc.checked ∨ t2 ∈ l)) ∧
      (∀ x, x ∈ (l.foldl (batchFetchStep v limit avoid dup) acc).invalidTxs →
        (x ∈ acc.invalidTxs ∨ x ∈ l.map Tx.hash)) ∧
      (∀ x, x ∈ (l.foldl (batchFetchStep v limit avoid dup) acc).invalidNonces →
        (x ∈ acc.invalidNonces ∨ x ∈ l.map Tx.nonce)) ∧
      (∀ m, m ∈ (l.foldl (batchFetchStep v limit avoid dup) acc).txsList →
        (m ∈ acc.txsList ∨ m.hash ∈ l.map Tx.hash)) ∧
      (∀ m, m ∈ (l.foldl (batchFetchStep v limit avoid dup) acc).sysTxsList →
        (m ∈ acc.sysTxsList ∨ m.hash ∈ l.map Tx.hash)) ∧
      (∀ x, x ∈ acc.invalidTxs → x ∈ (l.foldl (batchFetchStep v limit avoid dup) acc).invalidTxs) ∧
      (∀ x, x ∈ acc.invalidNonces →
        x ∈ (l.foldl (batchFetchStep v limit avoid dup) acc).invalidNonces) := by
  intro l
  induction l with
  | nil =>
    intro acc
    exact ⟨fun t2 h => Or.inl h, fun x h => Or.inl h, fun x h => Or.inl h,
      fun m h => Or.inl h, fun m h => Or.inl h, fun x h => h, fun x h => h⟩
  | cons t rest ih =>
    intro acc
    obtain ⟨s1, s2, s3, s4, s5, s6, s7⟩ := batchFetchStep_sub v limit avoid dup acc t
    obtain ⟨i1, i2, i3, i4, i5, i6, i7⟩ := ih (batchFetchStep v limit avoid dup acc t)
    rw [List.foldl_cons]
    refine ⟨?_, ?_, ?_, ?_, ?_, ?_, ?_⟩
    · intro t2 h
      rcases i1 t2 h with h | h
      · rcases s1 t2 h with h | h
        · exact Or.inl h
        · exact Or.inr (by simp [h])
      · exact Or.inr (by simp [h])
    · intro x h
      rcases i2 x h with h | h
      · rcases s2 x h with h | h
        · exact Or.inl h
        · exact Or.inr (by simp [h])
      · exact Or.inr (by simp [h])
    · intro x h
      rcases i3 x h with h | h
      · rcases s3 x h with h | h
        · exact Or.inl h
        · exact Or.inr (by simp [h])
      · exact Or.inr (by simp [h])
    · intro m h
      rcases i4 m h with h | h
      · rcases s4 m h with h | h
        · exact Or.inl h
        · exact Or.inr (by simp [h])
      · exact Or.inr (by simp [h])
    · intro m h
      rcases i5 m h with h | h
      · rcases s5 m h with h | h
        · exact Or.inl h
        · exact Or.inr (by simp [h])
      · exact Or.inr (by simp [h])
    · intro x hx
      exact i6 x (s6 x hx)
    · intro x hx
      exact i7 x (s7 x hx)


theorem fetchLoop_checked_spec (v : Tx → TransactionStatus) (limit : Nat) (avoid : List Nat)
    (dup : Bool) :
    ∀ (l : List Tx) (acc : FetchAcc) (tx : Tx),
      (l.map Tx.hash).Nodup → (l.map Tx.nonce).Nodup →
      tx ∈ (l.foldl (batchFetchStep v limit avoid dup) acc).checked →
      tx ∉ acc.checked →
      ((v tx = TransactionStatus.nonceCheckFail →
        (tx.hash ∉ acc.invalidTxs →
          tx.hash ∉ (l.foldl (batchFetchStep v limit avoid dup) acc).invalidTxs) ∧
        (tx.nonce ∉ acc.invalidNonces →
          tx.nonce ∉ (l.foldl (batchFetchStep v limit avoid dup) acc).invalidNonces) ∧
        ((∀ m ∈ acc.txsList, m.hash ≠ tx.hash) →
          ∀ m ∈ (l.foldl (batchFetchStep v limit avoid dup) acc).txsList, m.hash ≠ tx.hash) ∧
        ((∀ m ∈ acc.sysTxsList, m.hash ≠ tx.hash) →
          ∀ m ∈ (l.foldl (batchFetchStep v limit avoid dup) acc).sysTxsList, m.hash ≠ tx.hash)) ∧
      (v tx = TransactionStatus.blockLimitCheckFail → tx.sealed = false →
        tx.hash ∈ (l.foldl (batchFetchStep v limit avoid dup) acc).invalidTxs ∧
        tx.nonce ∈ (l.foldl (batchFetchStep v limit avoid dup) acc).invalidNonces ∧
        ((∀ m ∈ acc.txsList, m.hash ≠ tx.hash) →
          ∀ m ∈ (l.foldl (batchFetchStep v limit avoid dup) acc).txsList, m.hash ≠ tx.hash) ∧
        ((∀ m ∈ acc.sysTxsList, m.hash ≠ tx.hash) →
          ∀ m ∈ (l.foldl (batchFetchStep v limit avoid dup) acc).sysTxsList, m.hash ≠ tx.hash))) := by
  intro l
  induction l with
  | nil =>
    intro acc tx _ _ hmem hnot
    exact absurd hmem hnot
  | cons t rest ih =>
    intro acc tx hnodH hnodN hmem hnot
    rw [List.map_cons, List.nodup_cons] at hnodH hnodN
    obtain ⟨hth, hnH⟩ := hnodH
    obtain ⟨htn, hnN⟩ := hnodN
    rw [List.foldl_cons] at hmem ⊢
    obtain ⟨s1, s2, s3, s4, s5, s6, s7⟩ := batchFetchStep_sub v limit avoid dup acc t
    obtain ⟨i1, i2, i3, i4, i5, i6, i7⟩ :=
      fetchLoop_sub v limit avoid dup rest (batchFetchStep v limit avoid dup acc t)
    by_cases hacc1 : tx ∈ (batchFetchStep v limit avoid dup acc t).checked
    · have htxt : tx = t := by
        rcases s1 tx hacc1 with h | h
        · exact absurd h hnot
        · exact h
      subst htxt
      rcases batchFetchStep_char v limit avoid dup acc tx with
        hc | ⟨h1, hc⟩ | ⟨h1, h2, hc⟩ | ⟨h1, h2, hc⟩ | ⟨h1, h2, hcc⟩
      · rw [hc] at hacc1
        simp at hacc1
        exact absurd hacc1 hnot
      · constructor
        · intro hvt
          refine ⟨?_, ?_, ?_, ?_⟩
          · intro hni hmem2
            rcases i2 _ hmem2 with h | h
            · rw [hc] at h
              simp at h
              exact hni h
            · exact hth h
          · intro hni hmem2
            rcases i3 _ hmem2 with h | h
            · rw [hc] at h
              simp at h
              exact hni h
            · exact htn h
          · intro hpl m hm
            rcases i4 m hm with h | h
            · rw [hc] at h
              simp at h
              exact hpl m h
            · intro he
              exact hth (he ▸ h)
          · intro hpl m hm
            rcases i5 m hm with h | h
            · rw [hc] at h
              simp at h
              exact hpl m h
            · intro he
              exact hth (he ▸ h)
        · intro h2 h3
          rw [h1] at h2
          exact absurd h2 (by decide)
      · constructor
        · intro hvt
          rw [hvt] at h1
          exact absurd h1 (by decide)
        · intro hbv hbs
          refine ⟨?_, ?_, ?_, ?_⟩
          · apply i6
            rw [hc]
            simp [mem_setInsert]
          · apply i7
            rw [hc]
            simp [mem_setInsert]
          · intro hpl m hm
            rcases i4 m hm with h | h
            · rw [hc] at h
              simp [mem_setInsert] at h
              exact hpl m h
            · intro he
              exact hth (he ▸ h)
          · intro hpl m hm
            rcases i5 m hm with h | h
            · rw [hc] at h
              simp [mem_setInsert] at h
              exact hpl m h
            · intro he
              exact hth (he ▸ h)
      · constructor
        · intro hvt
          exact absurd hvt h1
        · intro hbv hbs
          exact absurd ⟨hbv, hbs⟩ h2
      · constructor
        · intro hvt
          exact absurd hvt h1
        · intro hbv hbs
          exact absurd ⟨hbv, hbs⟩ h2
    · have htrest : tx ∈ rest := by
        rcases i1 tx hmem with h | h
        · exact absurd h hacc1
        · exact h
      have hhne : tx.hash ≠ t.hash := by
        intro he
        exact hth (he ▸ List.mem_map_of_mem Tx.hash htrest)
      have hnne : tx.nonce ≠ t.nonce := by
        intro he
        exact htn (he ▸ List.mem_map_of_mem Tx.nonce htrest)
      obtain ⟨ihp1, ihp2⟩ := ih (batchFetchStep v limit avoid dup acc t) tx hnH hnN hmem hacc1
      constructor
      · intro hvt
        obtain ⟨a1, a2, a3, a4⟩ := ihp1 hvt
        refine ⟨?_, ?_, ?_, ?_⟩
        · intro hni
          apply a1
          intro hmem2
          rcases s2 _ hmem2 with h | h
          · exact hni h
          · exact hhne h
        · intro hni
          apply a2
          intro hmem2
          rcases s3 _ hmem2 with h | h
          · exact hni h
          · exact hnne h
        · intro hpl
          apply a3
          intro m hm
          rcases s4 m hm with h | h
          · exact hpl m h
          · rw [h]
            exact fun he => hhne he.symm
        · intro hpl
          apply a4
          intro m hm
          rcases s5 m hm with h | h
          · exact hpl m h
          · rw [h]
            exact fun he => hhne he.symm
      · intro hbv hbs
        obtain ⟨b1, b2, b3, b4⟩ := ihp2 hbv hbs
        refine ⟨b1, b2, ?_, ?_⟩
        · intro hpl
          apply b3
          intro m hm
          rcases s4 m hm with h | h
          · exact hpl m h
          · rw [h]
            exact fun he => hhne he.symm
        · intro hpl
          apply b4
          intro m hm
          rcases s5 m hm with h | h
          · exact hpl m h
          · rw [h]
            exact fun he => hhne he.symm


theorem batchFetchTxs_acc (v : Tx → TransactionStatus) (limit : Nat) (avoid : List Nat)
    (dup : Bool) (t0 s0 : List TransactionMetaData) (S : MemoryStorage) :
    (batchFetchTxs v limit avoid dup t0 s0 S).2 =
      S.txsTable.foldl (batchFetchStep v limit avoid dup)
        { txsTable := []
          invalidTxs := S.invalidTxs
          invalidNonces := S.invalidNonces
          sealedTxsSize := S.sealedTxsSize
          txsList := t0
          sysTxsList := s0
          stopped := false
          checked := [] } := rfl

/-- C5: during batchFetchTxs (started with fresh output blocks), for every
transaction on which the submitted-to-chain oracle was consulted during
the scan: if the oracle answered NonceCheckFail the transaction is skipped
without being added to the invalid sets and is not emitted into either
output list; if the oracle answered BlockLimitCheckFail and the sealed
flag of the transaction is false, its hash is added to the invalid-hash
set, its nonce to the invalid-nonce set, and it is not emitted into either
output list.  Table hashes and nonces are assumed pairwise distinct (the
C++ table is a map keyed by hash, and nonce uniqueness is enforced by the
external nonce checkers). -/
theorem c5_batchFetch_invalid (v : Tx → TransactionStatus) (limit : Nat) (avoid : List Nat)
    (dup : Bool) (S : MemoryStorage) (tx : Tx)
    (hnodH : (S.txsTable.map Tx.hash).Nodup)
    (hnodN : (S.txsTable.map Tx.nonce).Nodup)
    (hchk : tx ∈ (batchFetchTxs v limit avoid dup [] [] S).2.checked) :
    (v tx = TransactionStatus.nonceCheckFail →
      (tx.hash ∉ S.invalidTxs →
        tx.hash ∉ (batchFetchTxs v limit avoid dup [] [] S).2.invalidTxs) ∧
      (tx.nonce ∉ S.invalidNonces →
        tx.nonce ∉ (batchFetchTxs v limit avoid dup [] [] S).2.invalidNonces) ∧
      (∀ m ∈ (batchFetchTxs v limit avoid dup [] [] S).2.txsList, m.hash ≠ tx.hash) ∧
      (∀ m ∈ (batchFetchTxs v limit avoid dup [] [] S).2.sysTxsList, m.hash ≠ tx.hash)) ∧
    (v tx = TransactionStatus.blockLimitCheckFail → tx.sealed = false →
      tx.hash ∈ (batchFetchTxs v limit avoid dup [] [] S).2.invalidTxs ∧
      tx.nonce ∈ (batchFetchTxs v limit avoid dup [] [] S).2.invalidNonces ∧
      (∀ m ∈ (batchFetchTxs v limit avoid dup [] [] S).2.txsList, m.hash ≠ tx.hash) ∧
      (∀ m ∈ (batchFetchTxs v limit avoid dup [] [] S).2.sysTxsList, m.hash ≠ tx.hash)) := by
  rw [batchFetchTxs_acc] at hchk ⊢
  obtain ⟨p1, p2⟩ := fetchLoop_checked_spec v limit avoid dup S.txsTable
    { txsTable := []
      invalidTxs := S.invalidTxs
      invalidNonces := S.invalidNonces
      sealedTxsSize := S.sealedTxsSize
      txsList := []
      sysTxsList := []
      stopped := false
      checked := [] } tx hnodH hnodN hchk (by simp)
  constructor
  · intro hvt
    obtain ⟨a1, a2, a3, a4⟩ := p1 hvt
    exact ⟨fun hni => a1 hni, fun hni => a2 hni, a3 (by simp), a4 (by simp)⟩
  · intro hbv hbs
    obtain ⟨b1, b2, b3, b4⟩ := p2 hbv hbs
    exact ⟨b1, b2, b3 (by simp), b4 (by simp)⟩

theorem c5_batchFetch_invalid_witness :
    txC5w.hash ∈ (batchFetchTxs vC5w 10 [] false [] [] stateC5w).2.invalidTxs ∧
    txC5w.nonce ∈ (batchFetchTxs vC5w 10 [] false [] [] stateC5w).2.invalidNonces := by
  have h := (c5_batchFetch_invalid vC5w 10 [] false stateC5w txC5w (by decide) (by decide)
    (by decide)).2 rfl rfl
  exact ⟨h.1, h.2.1⟩


theorem countSealed_append (a b : List Tx) :
    countSealed (a ++ b) = countSealed a + countSealed b := by
  unfold countSealed
  rw [List.filter_append, List.length_append]

theorem countSealed_le_length (table : List Tx) : countSealed table ≤ table.length :=
  List.length_filter_le _ table

theorem notify_inv_id (S : MemoryStorage) (hinv : sealedCountInv S) :
    notifyUnsealedTxsSize S = S := by
  unfold sealedCountInv at hinv
  have hle := countSealed_le_length S.txsTable
  unfold notifyUnsealedTxsSize unSealedTxsSizeWithoutLock
  split
  · split
    · omega
    · rfl
  · rfl

theorem eraseTx_cons (h : Nat) (t : Tx) (rest : List Tx) :
    eraseTx h (t :: rest) = if t.hash = h then eraseTx h rest else t :: eraseTx h rest := by
  unfold eraseTx
  by_cases ht : t.hash = h <;> simp [List.filter_cons, ht]

theorem countSealed_eraseTx (h : Nat) (tx : Tx) :
    ∀ table, (table.map Tx.hash).Nodup → findTx h table = Option.some tx →
      countSealed (eraseTx h table) + (if tx.sealed then 1 else 0) = countSealed table := by
  intro table
  induction table with
  | nil => intro _ hf; cases hf
  | cons t rest ih =>
    intro hnod hf
    rw [List.map_cons, List.nodup_cons] at hnod
    obtain ⟨hh, hnodr⟩ := hnod
    rw [findTx_cons] at hf
    by_cases ht : t.hash = h
    · rw [if_pos ht] at hf
      obtain rfl : t = tx := Option.some.inj hf
      have hrest : eraseTx h rest = rest := by
        unfold eraseTx
        apply List.filter_eq_self.mpr
        intro x hx
        simp only [decide_eq_true_eq]
        intro he
        exact hh (by rw [ht, ← he]; exact List.mem_map_of_mem Tx.hash hx)
      rw [eraseTx_cons, if_pos ht, hrest, countSealed_cons]
      omega
    · rw [if_neg ht] at hf
      rw [eraseTx_cons, if_neg ht, countSealed_cons, countSealed_cons]
      have := ih hnodr hf
      omega

theorem countSealed_mutateTx (h : Nat) (f : Tx → Tx) (tx : Tx) :
    ∀ table, (table.map Tx.hash).Nodup → findTx h table = Option.some tx →
      countSealed (mutateTx h f table) + (if tx.sealed then 1 else 0) =
        countSealed table + (if (f tx).sealed then 1 else 0) := by
  intro table
  induction table with
  | nil => intro _ hf; cases hf
  | cons t rest ih =>
    intro hnod hf
    rw [List.map_cons, List.nodup_cons] at hnod
    obtain ⟨hh, hnodr⟩ := hnod
    rw [findTx_cons] at hf
    by_cases ht : t.hash = h
    · rw [if_pos ht] at hf
      obtain rfl : t = tx := Option.some.inj hf
      have hrest : mutateTx h f rest = rest := by
        unfold mutateTx
        have hx : ∀ x ∈ rest, (if x.hash = h then f x else x) = x := by
          intro x hx
          rw [if_neg ?hne]
          intro he
          exact hh (by rw [ht, ← he]; exact List.mem_map_of_mem Tx.hash hx)
        calc rest.map (fun x => if x.hash = h then f x else x) = rest.map id :=
              List.map_congr_left hx
          _ = rest := List.map_id rest
      unfold mutateTx
      rw [List.map_cons, if_pos ht]
      unfold mutateTx at hrest
      rw [hrest, countSealed_cons, countSealed_cons]
      omega
    · rw [if_neg ht] at hf
      unfold mutateTx
      rw [List.map_cons, if_neg ht]
      rw [countSealed_cons, countSealed_cons]
      have := ih hnodr hf
      unfold mutateTx at this
      omega

theorem eraseTx_keys_nodup (h : Nat) (table : List Tx)
    (hnod : (table.map Tx.hash).Nodup) : ((eraseTx h table).map Tx.hash).Nodup := by
  have hsub : List.Sublist (eraseTx h table) table := List.filter_sublist table
  have hsub2 : List.Sublist ((eraseTx h table).map Tx.hash) (table.map Tx.hash) :=
    hsub.map Tx.hash
  exact hsub2.nodup hnod

theorem eraseTx_length_le (h : Nat) (table : List Tx) :
    (eraseTx h table).length ≤ table.length :=
  List.length_filter_le _ table

theorem findTx_isSome_of_exist (h : Nat) (table : List Tx)
    (hex : existTx h table = true) : ∃ tx, findTx h table = Option.some tx := by
  rw [existTx_eq_isSome h table] at hex
  cases hf : findTx h table
  · rw [hf] at hex
    cases hex
  · exact ⟨_, rfl⟩


theorem removeWithoutLock_eq_none (h : Nat) (S : MemoryStorage)
    (hf : findTx h S.txsTable = Option.none) :
    removeWithoutLock h S = (Option.none, S) := by
  unfold removeWithoutLock
  rw [hf]

theorem removeWithoutLock_eq_some (h : Nat) (S : MemoryStorage) (tx : Tx)
    (hf : findTx h S.txsTable = Option.some tx) :
    removeWithoutLock h S =
      (Option.some tx,
        { S with
          txsTable := eraseTx h S.txsTable
          sealedTxsSize := if tx.sealed then dec64 S.sealedTxsSize else S.sealedTxsSize }) := by
  unfold removeWithoutLock
  rw [hf]

theorem removeWithoutLock_inv (h : Nat) (S : MemoryStorage)
    (hinv : sealedCountInv S) (hnod : (S.txsTable.map Tx.hash).Nodup)
    (hlen : S.txsTable.length < W64) :
    sealedCountInv (removeWithoutLock h S).2 ∧
    (((removeWithoutLock h S).2.txsTable.map Tx.hash).Nodup) ∧
    (removeWithoutLock h S).2.txsTable.length ≤ S.txsTable.length := by
  unfold sealedCountInv at hinv
  cases hf : findTx h S.txsTable with
  | none =>
    rw [removeWithoutLock_eq_none h S hf]
    exact ⟨hinv, hnod, le_refl _⟩
  | some tx =>
    rw [removeWithoutLock_eq_some h S tx hf]
    have hcnt := countSealed_eraseTx h tx S.txsTable hnod hf
    have hle := countSealed_le_length S.txsTable
    refine ⟨?_, eraseTx_keys_nodup h S.txsTable hnod, eraseTx_length_le h S.txsTable⟩
    unfold sealedCountInv
    dsimp only
    by_cases hts : tx.sealed = true
    · rw [if_pos hts]
      simp [hts] at hcnt
      rw [dec64_eq S.sealedTxsSize (by omega) (by omega)]
      omega
    · rw [if_neg hts]
      simp [hts] at hcnt
      omega

theorem removeSubmitted_inv (r : TransactionSubmitResult) (S : MemoryStorage)
    (hinv : sealedCountInv S) (hnod : (S.txsTable.map Tx.hash).Nodup)
    (hlen : S.txsTable.length < W64) :
    sealedCountInv (removeSubmittedTxWithoutLock r S).2 ∧
    (((removeSubmittedTxWithoutLock r S).2.txsTable.map Tx.hash).Nodup) ∧
    (removeSubmittedTxWithoutLock r S).2.txsTable.length ≤ S.txsTable.length := by
  obtain ⟨hi, hn, hl⟩ := removeWithoutLock_inv r.txHash S hinv hnod hlen
  unfold removeSubmittedTxWithoutLock
  cases hf : findTx r.txHash S.txsTable with
  | none =>
    rw [removeWithoutLock_eq_none r.txHash S hf]
    rw [removeWithoutLock_eq_none r.txHash S hf] at hi hn hl
    exact ⟨hi, hn, hl⟩
  | some tx =>
    rw [removeWithoutLock_eq_some r.txHash S tx hf]
    rw [removeWithoutLock_eq_some r.txHash S tx hf] at hi hn hl
    dsimp only at hi hn hl ⊢
    rw [notify_inv_id _ hi]
    exact ⟨hi, hn, hl⟩

theorem batchRemoveLoop_cons_none (r : TransactionSubmitResult)
    (rest : List TransactionSubmitResult) (S : MemoryStorage) (nl : List Int) (sc : Nat)
    (hp : (removeSubmittedTxWithoutLock r S).1 = Option.none) :
    batchRemoveLoop (r :: rest) S nl sc =
      (if r.nonce ≠ (-1 : Int) then
        batchRemoveLoop rest (removeSubmittedTxWithoutLock r S).2 (nl ++ [r.nonce]) sc
      else
        batchRemoveLoop rest (removeSubmittedTxWithoutLock r S).2 nl sc) := by
  conv_lhs => unfold batchRemoveLoop
  rw [hp]

theorem batchRemoveLoop_cons_some (r : TransactionSubmitResult)
    (rest : List TransactionSubmitResult) (S : MemoryStorage) (nl : List Int) (sc : Nat)
    (tx : Tx) (hp : (removeSubmittedTxWithoutLock r S).1 = Option.some tx) :
    batchRemoveLoop (r :: rest) S nl sc =
      batchRemoveLoop rest (removeSubmittedTxWithoutLock r S).2 (nl ++ [tx.nonce]) (sc + 1) := by
  conv_lhs => unfold batchRemoveLoop
  rw [hp]

theorem batchRemoveLoop_inv (results : List TransactionSubmitResult) :
    ∀ (S : MemoryStorage) (nl : List Int) (sc : Nat),
      sealedCountInv S → (S.txsTable.map Tx.hash).Nodup → S.txsTable.length < W64 →
      sealedCountInv (batchRemoveLoop results S nl sc).1 ∧
      ((batchRemoveLoop results S nl sc).1.txsTable.map Tx.hash).Nodup ∧
      (batchRemoveLoop results S nl sc).1.txsTable.length ≤ S.txsTable.length := by
  induction results with
  | nil =>
    intro S nl sc hinv hnod hlen
    exact ⟨hinv, hnod, le_refl _⟩
  | cons r rest ih =>
    intro S nl sc hinv hnod hlen
    obtain ⟨hi, hn, hl⟩ := removeSubmitted_inv r S hinv hnod hlen
    cases hp : (removeSubmittedTxWithoutLock r S).1 with
    | none =>
      rw [batchRemoveLoop_cons_none r rest S nl sc hp]
      split
      · obtain ⟨a, b, c⟩ := ih (removeSubmittedTxWithoutLock r S).2 (nl ++ [r.nonce]) sc
          hi hn (by omega)
        exact ⟨a, b, le_trans c hl⟩
      · obtain ⟨a, b, c⟩ := ih (removeSubmittedTxWithoutLock r S).2 nl sc hi hn (by omega)
        exact ⟨a, b, le_trans c hl⟩
    | some tx =>
      rw [batchRemoveLoop_cons_some r rest S nl sc tx hp]
      obtain ⟨a, b, c⟩ := ih (removeSubmittedTxWithoutLock r S).2 (nl ++ [tx.nonce]) (sc + 1)
        hi hn (by omega)
      exact ⟨a, b, le_trans c hl⟩

theorem batchRemove_inv (batchId : Int) (results : List TransactionSubmitResult) (now : Nat)
    (S : MemoryStorage) (hinv : sealedCountInv S) (hnod : (S.txsTable.map Tx.hash).Nodup)
    (hlen : S.txsTable.length < W64) :
    sealedCountInv (batchRemove batchId results now S).1 := by
  have h0 : sealedCountInv { S with blockNumberUpdatedTime := now } := hinv
  obtain ⟨a, b, c⟩ := batchRemoveLoop_inv results { S with blockNumberUpdatedTime := now } [] 0
    h0 hnod hlen
  unfold batchRemove
  dsimp only
  split
  · exact a
  · exact a


theorem countSealed_nil : countSealed [] = 0 := rfl

theorem mutateTx_length (h : Nat) (f : Tx → Tx) (table : List Tx) :
    (mutateTx h f table).length = table.length := by
  unfold mutateTx
  exact List.length_map table _

theorem markTxStep_inv (bid : Int) (bh : Nat) (flag : Bool) (S : MemoryStorage) (h : Nat)
    (hinv : sealedCountInv S) (hnod : (S.txsTable.map Tx.hash).Nodup)
    (hlen : S.txsTable.length < W64) :
    sealedCountInv (markTxStep bid bh flag S h) ∧
    (markTxStep bid bh flag S h).txsTable.map Tx.hash = S.txsTable.map Tx.hash := by
  unfold sealedCountInv at hinv ⊢
  unfold markTxStep
  cases hf : findTx h S.txsTable with
  | none => exact ⟨hinv, rfl⟩
  | some tx =>
    dsimp only
    split
    · exact ⟨hinv, rfl⟩
    · dsimp only
      have hhashpres : ∀ t : Tx,
          ((fun t : Tx =>
            if flag then { t with sealed := flag, batchId := bid, batchHash := bh }
            else { t with sealed := flag }) t).hash = t.hash := by
        intro t
        by_cases hb : flag <;> simp [hb]
      have hcnt := countSealed_mutateTx h
        (fun t : Tx =>
          if flag then { t with sealed := flag, batchId := bid, batchHash := bh }
          else { t with sealed := flag }) tx S.txsTable hnod hf
      have hfs : ((fun t : Tx =>
          if flag then { t with sealed := flag, batchId := bid, batchHash := bh }
          else { t with sealed := flag }) tx).sealed = flag := by
        by_cases hb : flag <;> simp [hb]
      rw [hfs] at hcnt
      have hle := countSealed_le_length S.txsTable
      have hle2 := countSealed_le_length
        (mutateTx h
          (fun t : Tx =>
            if flag then { t with sealed := flag, batchId := bid, batchHash := bh }
            else { t with sealed := flag }) S.txsTable)
      rw [mutateTx_length] at hle2
      refine ⟨?_, mutateTx_map_hash h _ hhashpres S.txsTable⟩
      by_cases h1 : flag = true ∧ tx.sealed = false
      · rw [if_pos h1]
        obtain ⟨hb, hts⟩ := h1
        have e1 : (if tx.sealed = true then (1 : Nat) else 0) = 0 := by simp [hts]
        have e2 : (if flag = true then (1 : Nat) else 0) = 1 := by simp [hb]
        rw [e1, e2] at hcnt
        rw [inc64_eq S.sealedTxsSize (by omega)]
        omega
      · rw [if_neg h1]
        by_cases h2 : flag = false ∧ tx.sealed = true
        · rw [if_pos h2]
          obtain ⟨hb, hts⟩ := h2
          have e1 : (if tx.sealed = true then (1 : Nat) else 0) = 1 := by simp [hts]
          have e2 : (if flag = true then (1 : Nat) else 0) = 0 := by simp [hb]
          rw [e1, e2] at hcnt
          rw [dec64_eq S.sealedTxsSize (by omega) (by omega)]
          omega
        · rw [if_neg h2]
          have hbit : (if tx.sealed then (1 : Nat) else 0) = (if flag then 1 else 0) := by
            by_cases hb : flag = true <;> by_cases hts : tx.sealed = true <;> simp_all
          omega

theorem foldl_markTxStep_inv (bid : Int) (bh : Nat) (flag : Bool) :
    ∀ (hashes : List Nat) (S : MemoryStorage),
      sealedCountInv S → (S.txsTable.map Tx.hash).Nodup → S.txsTable.length < W64 →
      sealedCountInv (hashes.foldl (markTxStep bid bh flag) S) ∧
      (hashes.foldl (markTxStep bid bh flag) S).txsTable.map Tx.hash =
        S.txsTable.map Tx.hash := by
  intro hashes
  induction hashes with
  | nil =>
    intro S hinv hnod hlen
    exact ⟨hinv, rfl⟩
  | cons h rest ih =>
    intro S hinv hnod hlen
    obtain ⟨hi, hm⟩ := markTxStep_inv bid bh flag S h hinv hnod hlen
    rw [List.foldl_cons]
    have hlen2 : (markTxStep bid bh flag S h).txsTable.length = S.txsTable.length := by
      have := congrArg List.length hm
      rw [List.length_map, List.length_map] at this
      exact this
    obtain ⟨a, b⟩ := ih (markTxStep bid bh flag S h) hi (hm ▸ hnod) (by omega)
    exact ⟨a, b.trans hm⟩

/-- batchMarkTxs preserves the sealed-count invariant and the table keys. -/
theorem batchMarkTxs_inv (hashes : List Nat) (bid : Int) (bh : Nat) (flag : Bool)
    (S : MemoryStorage) (hinv : sealedCountInv S) (hnod : (S.txsTable.map Tx.hash).Nodup)
    (hlen : S.txsTable.length < W64) :
    sealedCountInv (batchMarkTxs hashes bid bh flag S) := by
  obtain ⟨hi, hm⟩ := foldl_markTxStep_inv bid bh flag hashes S hinv hnod hlen
  unfold batchMarkTxs
  rw [notify_inv_id _ hi]
  exact hi

theorem countSealed_markAll (flag : Bool) :
    ∀ table : List Tx,
      countSealed (table.map (fun t =>
        if flag then { t with sealed := flag }
        else { t with sealed := flag, batchId := -1, batchHash := 0 })) =
      (if flag then table.length else 0) := by
  intro table
  induction table with
  | nil => by_cases hb : flag <;> simp [hb, countSealed_nil]
  | cons t rest ih =>
    rw [List.map_cons, countSealed_cons, ih]
    by_cases hb : flag <;> simp [hb] <;> omega

theorem batchMarkAllTxs_inv (flag : Bool) (S : MemoryStorage) :
    sealedCountInv (batchMarkAllTxs flag S) := by
  unfold batchMarkAllTxs
  dsimp only
  have hc := countSealed_markAll flag S.txsTable
  have hinv1 : sealedCountInv
      { S with
        txsTable := S.txsTable.map (fun t =>
          if flag then { t with sealed := flag }
          else { t with sealed := flag, batchId := -1, batchHash := 0 })
        sealedTxsSize :=
          if flag then
            (S.txsTable.map (fun t =>
              if flag then { t with sealed := flag }
              else { t with sealed := flag, batchId := -1, batchHash := 0 })).length
          else 0 } := by
    unfold sealedCountInv
    dsimp only
    rw [hc, List.length_map]
  rw [notify_inv_id _ hinv1]
  exact hinv1


theorem remove_inv (h : Nat) (S : MemoryStorage)
    (hinv : sealedCountInv S) (hnod : (S.txsTable.map Tx.hash).Nodup)
    (hlen : S.txsTable.length < W64) :
    sealedCountInv (remove h S).2 := by
  obtain ⟨hi, hn, hl⟩ := removeWithoutLock_inv h S hinv hnod hlen
  unfold remove
  dsimp only
  rw [notify_inv_id _ hi]
  exact hi

theorem tableInsert_absent (tx : Tx) (table : List Tx)
    (hex : existTx tx.hash table = false) :
    tableInsert tx table = table ++ [tx] := by
  unfold tableInsert
  rw [hex]
  simp

theorem insert_state (tx : Tx) (S : MemoryStorage) :
    (insert tx S).2 = notifyUnsealedTxsSize
      { S with
        txsTable := tableInsert tx S.txsTable
        precommitQueue := S.precommitQueue ++ [tx.hash] } := rfl

theorem enforce_inv (vres : TransactionStatus) (tx : Tx) (S : MemoryStorage)
    (hinv : sealedCountInv S) (hnod : (S.txsTable.map Tx.hash).Nodup)
    (hlen : S.txsTable.length + 1 < W64)
    (hpre : tx.sealed = false ∨ existTx tx.hash S.txsTable = true) :
    sealedCountInv (enforceSubmitTransaction vres tx S).2 := by
  unfold enforceSubmitTransaction
  split
  · exact hinv
  · cases hf : findTx tx.hash S.txsTable with
    | some old =>
      dsimp only
      by_cases hs : old.sealed = false
      · rw [if_pos hs]
        have hcnt := countSealed_mutateTx tx.hash
          (fun t => { t with sealed := true, batchId := tx.batchId, batchHash := tx.batchHash })
          old S.txsTable hnod hf
        have e1 : (if old.sealed = true then (1 : Nat) else 0) = 0 := by simp [hs]
        have e2 : (if ((fun t : Tx =>
            { t with sealed := true, batchId := tx.batchId, batchHash := tx.batchHash }) old).sealed
            = true then (1 : Nat) else 0) = 1 := by simp
        rw [e1, e2] at hcnt
        unfold sealedCountInv at hinv ⊢
        dsimp only
        have hle := countSealed_le_length S.txsTable
        rw [inc64_eq S.sealedTxsSize (by omega)]
        omega
      · rw [if_neg hs]
        split
        · exact hinv
        · exact hinv
    | none =>
      dsimp only
      have hsf : tx.sealed = false := by
        rcases hpre with h | h
        · exact h
        · rw [existTx_eq_isSome tx.hash S.txsTable, hf] at h
          cases h
      have hex : existTx tx.hash S.txsTable = false := by
        rw [existTx_eq_isSome tx.hash S.txsTable, hf]
        rfl
      rw [if_pos hsf, if_pos hsf, insert_state]
      have hSm : sealedCountInv
          { S with
            sealedTxsSize := inc64 S.sealedTxsSize
            txsTable := tableInsert { tx with sealed := true } S.txsTable
            precommitQueue := S.precommitQueue ++ [{ tx with sealed := true }.hash] } := by
        unfold sealedCountInv
        dsimp only
        rw [tableInsert_absent { tx with sealed := true } S.txsTable hex,
          countSealed_append, countSealed_cons, countSealed_nil]
        unfold sealedCountInv at hinv
        have hle := countSealed_le_length S.txsTable
        rw [inc64_eq S.sealedTxsSize (by omega)]
        simp
        omega
      rw [notify_inv_id _ hSm]
      exact hSm

theorem sealFetchedTx_sealed (tx : Tx) : (sealFetchedTx tx).sealed = true := rfl

theorem batchFetchStep_table_length (v : Tx → TransactionStatus) (limit : Nat)
    (avoid : List Nat) (dup : Bool) (acc : FetchAcc) (t : Tx) :
    (batchFetchStep v limit avoid dup acc t).txsTable.length = acc.txsTable.length + 1 := by
  rcases batchFetchStep_char v limit avoid dup acc t with
    hc | ⟨h1, hc⟩ | ⟨h1, h2, hc⟩ | ⟨h1, h2, hc⟩ | ⟨h1, h2, hc | hc⟩ <;>
  rw [hc] <;> simp [fetchFinish_txsTable]

theorem fetchLoop_inv (v : Tx → TransactionStatus) (limit : Nat) (avoid : List Nat)
    (dup : Bool) :
    ∀ (l : List Tx) (acc : FetchAcc),
      acc.sealedTxsSize = countSealed (acc.txsTable ++ l) →
      acc.txsTable.length + l.length < W64 →
      (l.foldl (batchFetchStep v limit avoid dup) acc).sealedTxsSize =
        countSealed ((l.foldl (batchFetchStep v limit avoid dup) acc).txsTable) := by
  intro l
  induction l with
  | nil =>
    intro acc hinv hlen
    simpa using hinv
  | cons t rest ih =>
    intro acc hinv hlen
    rw [List.length_cons] at hlen
    rw [List.foldl_cons]
    have hstep : (batchFetchStep v limit avoid dup acc t).sealedTxsSize =
        countSealed ((batchFetchStep v limit avoid dup acc t).txsTable ++ rest) := by
      have h1 := countSealed_le_length acc.txsTable
      have h2 := countSealed_le_length rest
      rw [countSealed_append, countSealed_cons] at hinv
      rcases batchFetchStep_char v limit avoid dup acc t with
        hc | ⟨hx1, hc⟩ | ⟨hx1, hx2, hc⟩ | ⟨hx1, hx2, hc⟩ | ⟨hx1, hx2, hc | hc⟩ <;>
        rw [hc] <;>
        simp only [fetchFinish_sealedTxsSize, fetchFinish_txsTable] <;>
        rw [countSealed_append, countSealed_append, countSealed_cons, countSealed_nil]
      · omega
      · omega
      · omega
      · omega
      · by_cases hts : t.sealed = false
        · rw [if_pos hts]
          have e1 : (if t.sealed = true then (1 : Nat) else 0) = 0 := by simp [hts]
          rw [e1] at hinv
          rw [inc64_eq acc.sealedTxsSize (by omega)]
          rw [sealFetchedTx_sealed]
          simp
          omega
        · rw [if_neg hts]
          have e1 : (if t.sealed = true then (1 : Nat) else 0) = 1 := by
            cases hq : t.sealed
            · exact absurd hq hts
            · simp
          rw [e1] at hinv
          rw [sealFetchedTx_sealed]
          simp
          omega
      · by_cases hts : t.sealed = false
        · rw [if_pos hts]
          have e1 : (if t.sealed = true then (1 : Nat) else 0) = 0 := by simp [hts]
          rw [e1] at hinv
          rw [inc64_eq acc.sealedTxsSize (by omega)]
          rw [sealFetchedTx_sealed]
          simp
          omega
        · rw [if_neg hts]
          have e1 : (if t.sealed = true then (1 : Nat) else 0) = 1 := by
            cases hq : t.sealed
            · exact absurd hq hts
            · simp
          rw [e1] at hinv
          rw [sealFetchedTx_sealed]
          simp
          omega
    exact ih (batchFetchStep v limit avoid dup acc t) hstep
      (by rw [batchFetchStep_table_length]; omega)


theorem batchFetchTxs_state (v : Tx → TransactionStatus) (limit : Nat) (avoid : List Nat)
    (dup : Bool) (t0 s0 : List TransactionMetaData) (S : MemoryStorage) :
    (batchFetchTxs v limit avoid dup t0 s0 S).1 =
      notifyUnsealedTxsSize
        { S with
          txsTable := (batchFetchTxs v limit avoid dup t0 s0 S).2.txsTable
          invalidTxs := (batchFetchTxs v limit avoid dup t0 s0 S).2.invalidTxs
          invalidNonces := (batchFetchTxs v limit avoid dup t0 s0 S).2.invalidNonces
          sealedTxsSize := (batchFetchTxs v limit avoid dup t0 s0 S).2.sealedTxsSize } := rfl

theorem batchFetchTxs_inv (v : Tx → TransactionStatus) (limit : Nat) (avoid : List Nat)
    (dup : Bool) (t0 s0 : List TransactionMetaData) (S : MemoryStorage)
    (hinv : sealedCountInv S) (hlen : S.txsTable.length < W64) :
    sealedCountInv (batchFetchTxs v limit avoid dup t0 s0 S).1 := by
  have hf := fetchLoop_inv v limit avoid dup S.txsTable
    { txsTable := []
      invalidTxs := S.invalidTxs
      invalidNonces := S.invalidNonces
      sealedTxsSize := S.sealedTxsSize
      txsList := t0
      sysTxsList := s0
      stopped := false
      checked := [] }
    (by unfold sealedCountInv at hinv; simpa using hinv) (by simpa using hlen)
  rw [batchFetchTxs_state]
  have hmid : sealedCountInv
      { S with
        txsTable := (batchFetchTxs v limit avoid dup t0 s0 S).2.txsTable
        invalidTxs := (batchFetchTxs v limit avoid dup t0 s0 S).2.invalidTxs
        invalidNonces := (batchFetchTxs v limit avoid dup t0 s0 S).2.invalidNonces
        sealedTxsSize := (batchFetchTxs v limit avoid dup t0 s0 S).2.sealedTxsSize } := by
    unfold sealedCountInv
    dsimp only
    rw [batchFetchTxs_acc]
    exact hf
  rw [notify_inv_id _ hmid]
  exact hmid

/-- C1 (amended): at a state satisfying the sealed-count invariant (the
counter sealed_count equals the number of transactions in TxTable whose
sealed flag is true), every operation that inserts, removes, seals or
unseals a transaction preserves the equality: batch_fetch_txs,
batch_mark_txs, batch_mark_all_txs, remove and batch_remove preserve it
unconditionally, and enforce_submit preserves it provided the transaction
passed in is not already marked sealed or its hash is already present in
the table.  Table keys are assumed unique (the C++ table is a map keyed by
hash) and the table smaller than the size_t modulus. -/
theorem c1_sealed_count_invariant (S : MemoryStorage)
    (hinv : sealedCountInv S) (hnod : (S.txsTable.map Tx.hash).Nodup)
    (hlen : S.txsTable.length + 1 < W64) :
    (∀ vres tx, (tx.sealed = false ∨ existTx tx.hash S.txsTable = true) →
      sealedCountInv (enforceSubmitTransaction vres tx S).2) ∧
    (∀ v limit avoid dup t0 s0,
      sealedCountInv (batchFetchTxs v limit avoid dup t0 s0 S).1) ∧
    (∀ hashes bid bh flag, sealedCountInv (batchMarkTxs hashes bid bh flag S)) ∧
    (∀ flag, sealedCountInv (batchMarkAllTxs flag S)) ∧
    (∀ h, sealedCountInv (remove h S).2) ∧
    (∀ bid results now, sealedCountInv (batchRemove bid results now S).1) := by
  refine ⟨?_, ?_, ?_, ?_, ?_, ?_⟩
  · intro vres tx hpre
    exact enforce_inv vres tx S hinv hnod hlen hpre
  · intro v limit avoid dup t0 s0
    exact batchFetchTxs_inv v limit avoid dup t0 s0 S hinv (by omega)
  · intro hashes bid bh flag
    exact batchMarkTxs_inv hashes bid bh flag S hinv hnod (by omega)
  · intro flag
    exact batchMarkAllTxs_inv flag S
  · intro h
    exact remove_inv h S hinv hnod (by omega)
  · intro bid results now
    exact batchRemove_inv bid results now S hinv hnod (by omega)

theorem c1_sealed_count_invariant_witness :
    sealedCountInv stateC1w ∧ sealedCountInv (batchMarkTxs [9] 1 2 true stateC1w) := by
  have h := c1_sealed_count_invariant stateC1w (by unfold sealedCountInv; decide) (by decide)
    (by rw [W64_eq]; decide)
  exact ⟨by unfold sealedCountInv; decide, h.2.2.1 [9] 1 2 true⟩

theorem c1_counterexample :
    sealedCountInv stateC1c ∧
    ¬ sealedCountInv (enforceSubmitTransaction TransactionStatus.none txC1c stateC1c).2 := by
  constructor
  · unfold sealedCountInv
    decide
  · unfold sealedCountInv
    decide

end BcosTxPool
